import Mathlib

/-!
Shallow embedding of the `xgi-ubergraphs` repository core:
the `DiUberGraphs` mutation engine (`add_node`, `add_edge` with its recursive
nested-edge ingestion), the `IDDict` validated map, the `update_uid_counter`
allocator rebase, and the `incidence_matrix` builder.

Python values that can appear in an edge specification, as a node token or as
an edge id are modelled by the inductive `PyObj`.  Python's bounded call stack
(`RecursionError`) is modelled by an explicit fuel argument on `add_edge`, the
only recursive routine of the source; all other loops are structural on lists.
Integer-valued floats are identified with integers (Python's `==`/`hash` treat
`7.0` and `7` as the same dict key); `pfloatNI` is a float whose value is not
an integer; `pother` is an opaque non-numeric hashable object (for example an
`object()` instance), for which `float(-)` raises `TypeError`.
-/

namespace Uber

inductive PyObj where
  | pnone
  | pint (n : Int)
  | pfloatNI (t : Int)
  | pstr (s : String)
  | pother (k : Nat)
  | plist (xs : List PyObj)
  | ptup (xs : List PyObj)

mutual

/-- Boolean structural equality on modelled Python values. -/
def beqP : PyObj → PyObj → Bool
  | .pnone, .pnone => true
  | .pint n, .pint m => n == m
  | .pfloatNI a, .pfloatNI b => a == b
  | .pstr a, .pstr b => a == b
  | .pother a, .pother b => a == b
  | .plist xs, .plist ys => beqL xs ys
  | .ptup xs, .ptup ys => beqL xs ys
  | _, _ => false

/-- Boolean equality on lists of modelled Python values. -/
def beqL : List PyObj → List PyObj → Bool
  | [], [] => true
  | x :: xs, y :: ys => beqP x y && beqL xs ys
  | _, _ => false

end

mutual

theorem beqP_iff : ∀ x y : PyObj, beqP x y = true ↔ x = y
  | .pnone, .pnone => by simp [beqP]
  | .pint n, .pint m => by simp [beqP]
  | .pfloatNI a, .pfloatNI b => by simp [beqP]
  | .pstr a, .pstr b => by simp [beqP]
  | .pother a, .pother b => by simp [beqP]
  | .plist xs, .plist ys => by simpa [beqP] using beqL_iff xs ys
  | .ptup xs, .ptup ys => by simpa [beqP] using beqL_iff xs ys
  | .pnone, .pint _ | .pnone, .pfloatNI _ | .pnone, .pstr _ | .pnone, .pother _
  | .pnone, .plist _ | .pnone, .ptup _
  | .pint _, .pnone | .pint _, .pfloatNI _ | .pint _, .pstr _ | .pint _, .pother _
  | .pint _, .plist _ | .pint _, .ptup _
  | .pfloatNI _, .pnone | .pfloatNI _, .pint _ | .pfloatNI _, .pstr _
  | .pfloatNI _, .pother _ | .pfloatNI _, .plist _ | .pfloatNI _, .ptup _
  | .pstr _, .pnone | .pstr _, .pint _ | .pstr _, .pfloatNI _ | .pstr _, .pother _
  | .pstr _, .plist _ | .pstr _, .ptup _
  | .pother _, .pnone | .pother _, .pint _ | .pother _, .pfloatNI _
  | .pother _, .pstr _ | .pother _, .plist _ | .pother _, .ptup _
  | .plist _, .pnone | .plist _, .pint _ | .plist _, .pfloatNI _ | .plist _, .pstr _
  | .plist _, .pother _ | .plist _, .ptup _
  | .ptup _, .pnone | .ptup _, .pint _ | .ptup _, .pfloatNI _ | .ptup _, .pstr _
  | .ptup _, .pother _ | .ptup _, .plist _ => by simp [beqP]

theorem beqL_iff : ∀ xs ys : List PyObj, beqL xs ys = true ↔ xs = ys
  | [], [] => by simp [beqL]
  | x :: xs, y :: ys => by
      simp only [beqL, Bool.and_eq_true, List.cons.injEq]
      exact and_congr (beqP_iff x y) (beqL_iff xs ys)
  | [], _ :: _ => by simp [beqL]
  | _ :: _, [] => by simp [beqL]

end

instance : DecidableEq PyObj := fun x y => decidable_of_iff _ (beqP_iff x y)

/-- Python `isinstance(x, Iterable) and not isinstance(x, (str, bytes))`:
only lists and tuples of the modelled value space qualify. -/
def nonStrIter : PyObj → Bool
  | .plist _ => true
  | .ptup _ => true
  | _ => false

/-- Python `isinstance(x, Iterable)` (strings are iterable in Python). -/
def pyIterable : PyObj → Bool
  | .plist _ => true
  | .ptup _ => true
  | .pstr _ => true
  | _ => false

/-- The local `_is_edge_like` of `add_edge` (DiUberGraphs.py lines 149-157):
a list/tuple of length 2 where at least one side is an iterable that is not
`str`/`bytes`. -/
def is_edge_like : PyObj → Bool
  | .plist [a, b] => nonStrIter a || nonStrIter b
  | .ptup [a, b] => nonStrIter a || nonStrIter b
  | _ => false

/-- The `_is_edge_like` of the trailing duplicated block (lines 234-240):
same shape test but `isinstance(el[i], Iterable)` without the `str`
exclusion. -/
def is_edge_like2 : PyObj → Bool
  | .plist [a, b] => pyIterable a || pyIterable b
  | .ptup [a, b] => pyIterable a || pyIterable b
  | _ => false

/-- Top-level spec validation of `add_edge` (line 134):
`isinstance(members, (tuple, list)) and len(members) == 2`. -/
def spec2 : PyObj → Option (PyObj × PyObj)
  | .plist [t, h] => some (t, h)
  | .ptup [t, h] => some (t, h)
  | _ => none

mutual

/-- Python hashability of the modelled values: lists are unhashable, tuples
are hashable iff their components are, every other modelled value is
hashable. -/
def hashable : PyObj → Bool
  | .pnone => true
  | .pint _ => true
  | .pfloatNI _ => true
  | .pstr _ => true
  | .pother _ => true
  | .plist _ => false
  | .ptup xs => hashableL xs

/-- Hashability of every element of a list of values. -/
def hashableL : List PyObj → Bool
  | [] => true
  | x :: xs => hashable x && hashableL xs

end

/-- Python `iter(x)` as used by a `for` loop: lists/tuples yield their
elements, strings yield their characters as one-character strings, everything
else raises `TypeError` (returned as `none`). -/
def pyIter : PyObj → Option (List PyObj)
  | .plist xs => some xs
  | .ptup xs => some xs
  | .pstr s => some (s.toList.map fun c => .pstr (String.mk [c]))
  | _ => none

/-! ## Insertion-ordered association lists

Python dicts preserve insertion order: setting an existing key keeps its
position, setting a fresh key appends.  The four core tables (`_node`,
`_node_attr`, `_edge`, `_edge_attr`) are modelled as such lists. -/

section Alist

variable {α : Type} {β : Type} [DecidableEq α]

/-- Dict lookup: value of the first (unique) binding of `k`. -/
def aget (l : List (α × β)) (k : α) : Option β :=
  match l with
  | [] => none
  | p :: ps => if p.1 = k then some p.2 else aget ps k

/-- Dict membership (`k in d`). -/
def amem (l : List (α × β)) (k : α) : Bool :=
  match l with
  | [] => false
  | p :: ps => if p.1 = k then true else amem ps k

/-- Dict assignment (`d[k] = v`): in-place update of an existing binding,
append for a fresh key. -/
def aset (l : List (α × β)) (k : α) (v : β) : List (α × β) :=
  match l with
  | [] => [(k, v)]
  | p :: ps => if p.1 = k then (k, v) :: ps else p :: aset ps k v

/-- Dict deletion (`del d[k]`) of a present key. -/
def adel (l : List (α × β)) (k : α) : List (α × β) :=
  match l with
  | [] => []
  | p :: ps => if p.1 = k then ps else p :: adel ps k

end Alist

/-- Attribute maps (`**attr` keyword dicts): string keys to values. -/
abbrev Attr : Type := List (String × PyObj)

/-- `m.update(attr)`: fold the updates left to right. -/
def updAttr (m : Attr) (kv : Attr) : Attr :=
  kv.foldl (fun m p => aset m p.1 p.2) m

/-- A node's incidence record `{"in": set(), "out": set()}`:  `nIn` holds the
ids of edges in which the node is a head member, `nOut` those in which it is a
tail member. -/
structure NodeRec where
  nIn : Finset PyObj
  nOut : Finset PyObj
deriving DecidableEq

/-- An edge's incidence record `{"in": set(), "out": set()}`:  in the source
`edge[uid]["in"]` receives tail members and `edge[uid]["out"]` head members,
so `eIn` is the tail member set and `eOut` the head member set. -/
structure EdgeRec where
  eIn : Finset PyObj
  eOut : Finset PyObj
deriving DecidableEq

/-- The mutable state of a `DiUberGraphs` object: the `_edge_uid` allocator
counter (an `itertools.count`, characterised by the next value it yields) and
the four core tables. -/
structure DiUberGraphs where
  edge_uid : Nat
  node : List (PyObj × NodeRec)
  node_attr : List (PyObj × Attr)
  edge : List (PyObj × EdgeRec)
  edge_attr : List (PyObj × Attr)
deriving DecidableEq

/-- Graph state together with the number of `warnings.warn` calls emitted. -/
structure Eff where
  g : DiUberGraphs
  warns : Nat
deriving DecidableEq

/-- Python exceptions raised by the modelled code paths. -/
inductive PyErr where
  | typeError (msg : String)
  | nameError (msg : String)
  | xgiError (msg : String)
  | idNotFound (msg : String)
  | keyError (msg : String)
  | recursionError (msg : String)
deriving DecidableEq

/-! ## `update_uid_counter` (utils.py lines 49-81)

`uid = next(H._edge_uid)` samples the counter (advancing the underlying
iterator to `c + 1`); the guard short-circuits on `str` and `tuple`, then
evaluates `float(idx).is_integer()` — which raises `TypeError` for
non-numeric values such as `None`, lists, or opaque objects, leaving the
already-advanced iterator in place — and finally compares `uid <= idx`.
On success `H._edge_uid = count(start)` with `start = int(idx) + 1` when the
guard held, else `start = uid`. -/
def update_uid_counter (c : Nat) (idx : PyObj) : Option PyErr × Nat :=
  match idx with
  | .pstr _ => (none, c)
  | .ptup _ => (none, c)
  | .pint n => if (c : Int) ≤ n then (none, (n + 1).toNat) else (none, c)
  | .pfloatNI _ => (none, c)
  | .pnone => (some (.typeError "float() argument must be a string or a real number"), c + 1)
  | .plist _ => (some (.typeError "float() argument must be a string or a real number"), c + 1)
  | .pother _ => (some (.typeError "float() argument must be a string or a real number"), c + 1)

/-! ## The repository's own `IDDict` (utils.py lines 15-46)

Its `except` handlers re-raise `IDNotFound(...)` and its `None`-key guard
raises `XGIError(...)`, but neither name is imported or defined anywhere in
`utils.py`, so evaluating them raises `NameError` at runtime.  Only the
unhashable-key path (`TypeError` re-raised as `TypeError`) works as
documented. -/

/-- `IDDict.__getitem__`: hit returns the value; a miss raises `KeyError`,
whose handler then hits `NameError: name IDNotFound is not defined`. -/
def IDDict.getitem (d : List (PyObj × PyObj)) (k : PyObj) : Except PyErr PyObj :=
  match aget d k with
  | some v => .ok v
  | none => .error (.nameError "name IDNotFound is not defined")

/-- `IDDict.__setitem__`: a `None` key hits `NameError: name XGIError is not
defined`; an unhashable key raises `TypeError`; otherwise the binding is
stored. -/
def IDDict.setitem (d : List (PyObj × PyObj)) (k : PyObj) (v : PyObj) :
    Except PyErr (List (PyObj × PyObj)) :=
  if k = .pnone then .error (.nameError "name XGIError is not defined")
  else if hashable k = false then .error (.typeError "ID not a valid type")
  else .ok (aset d k v)

/-- `IDDict.__delitem__`: a miss raises `KeyError`, whose handler then hits
`NameError: name IDNotFound is not defined`. -/
def IDDict.delitem (d : List (PyObj × PyObj)) (k : PyObj) :
    Except PyErr (List (PyObj × PyObj)) :=
  match aget d k with
  | some _ => .ok (adel d k)
  | none => .error (.nameError "name IDNotFound is not defined")

/-! ## `add_node` (DiUberGraphs.py lines 105-127)

`DiUberGraphs` imports `IDDict` from the external `xgi` package, where
`XGIError`/`IDNotFound` are proper exception classes, so the graph methods
are modelled with those error values.  The `node not in self._node`
membership test raises `TypeError` for an unhashable node. -/
def add_node (g : DiUberGraphs) (node : PyObj) (attr : Attr) :
    Except PyErr DiUberGraphs :=
  if hashable node = false then .error (.typeError "unhashable type") else
  if amem g.node node then
    match aget g.node_attr node with
    | some m => .ok { g with node_attr := aset g.node_attr node (updAttr m attr) }
    | none => .error (.idNotFound "ID not found")
  else if node = .pnone then .error (.xgiError "None cannot be a node or edge")
  else
    .ok { g with
      node := aset g.node node ⟨∅, ∅⟩,
      node_attr := aset g.node_attr node (updAttr [] attr) }

/-! ## `add_edge` (DiUberGraphs.py lines 129-276) -/

/-- `_add_node_to_edge` (lines 183-193): ensure the scalar node exists, then
link it to `uid` — `node["out"].add(uid); edge[uid]["in"].add(node)` on the
tail side, symmetrically on the head side.  The node-side mutation happens
before the edge-table lookup, so a failing lookup leaves it behind. -/
def addNodeToEdge (eff : Eff) (uid : PyObj) (node : PyObj) (isTail : Bool) :
    Except (PyErr × Eff) Eff :=
  if hashable node = false then .error (.typeError "unhashable type", eff)
  else
    match
      (if amem eff.g.node node then Except.ok eff
       else if node = .pnone then
         Except.error ((PyErr.xgiError "None cannot be a node or edge"), eff)
       else Except.ok { eff with g := { eff.g with
          node := aset eff.g.node node ⟨∅, ∅⟩,
          node_attr := aset eff.g.node_attr node [] } }) with
    | .error e => .error e
    | .ok eff1 =>
      match aget eff1.g.node node with
      | none => .error (.idNotFound "ID not found", eff1)
      | some nr =>
        let nr2 := if isTail then { nr with nOut := insert uid nr.nOut }
                   else { nr with nIn := insert uid nr.nIn }
        let eff2 := { eff1 with g := { eff1.g with node := aset eff1.g.node node nr2 } }
        match aget eff2.g.edge uid with
        | none => .error (.idNotFound "ID not found", eff2)
        | some er =>
          let er2 := if isTail then { er with eIn := insert node er.eIn }
                     else { er with eOut := insert node er.eOut }
          .ok { eff2 with g := { eff2.g with edge := aset eff2.g.edge uid er2 } }

/-- Short-circuiting fold of a fallible step over a list, threading the
effectful state — the shape of every `for` loop in `add_edge`. -/
def foldE (f : Eff → PyObj → Except (PyErr × Eff) Eff) (eff : Eff) :
    List PyObj → Except (PyErr × Eff) Eff
  | [] => .ok eff
  | x :: xs =>
    match f eff x with
    | .error e => .error e
    | .ok eff2 => foldE f eff2 xs

/-- One sub-element of a flattened iterable element (lines 172-177):
edge-like sub-elements recurse through `recAdd`, others become plain
members. -/
def processSubF (recAdd : Eff → PyObj → Except (PyErr × Eff) Eff) (uid : PyObj)
    (isTail : Bool) (eff : Eff) (sub : PyObj) : Except (PyErr × Eff) Eff :=
  if is_edge_like sub then recAdd eff sub
  else addNodeToEdge eff uid sub isTail

/-- `_process_element` (lines 159-181): edge-like elements recurse, iterable
non-`str` elements are flattened one level, scalars become plain members. -/
def processElementF (recAdd : Eff → PyObj → Except (PyErr × Eff) Eff)
    (uid : PyObj) (isTail : Bool) (eff : Eff) (el : PyObj) :
    Except (PyErr × Eff) Eff :=
  if is_edge_like el then recAdd eff el
  else
    match el with
    | .plist subs => foldE (processSubF recAdd uid isTail) eff subs
    | .ptup subs => foldE (processSubF recAdd uid isTail) eff subs
    | _ => addNodeToEdge eff uid el isTail

/-- Side processing (lines 195-208): an iterable non-`str` side is iterated
element by element, any other side value is processed as one element. -/
def processSideF (recAdd : Eff → PyObj → Except (PyErr × Eff) Eff)
    (uid : PyObj) (isTail : Bool) (eff : Eff) (side : PyObj) :
    Except (PyErr × Eff) Eff :=
  match side with
  | .plist els => foldE (processElementF recAdd uid isTail) eff els
  | .ptup els => foldE (processElementF recAdd uid isTail) eff els
  | _ => processElementF recAdd uid isTail eff side

/-- One element of the trailing duplicated block's loops (lines 243-270):
the block's own `_is_edge_like` decides between recursion and a direct
member registration identical to `_add_node_to_edge`. -/
def trailingElemF (recAdd : Eff → PyObj → Except (PyErr × Eff) Eff)
    (uid : PyObj) (isTail : Bool) (eff : Eff) (el : PyObj) :
    Except (PyErr × Eff) Eff :=
  if is_edge_like2 el then recAdd eff el
  else addNodeToEdge eff uid el isTail

/-- Iteration setup of a `for` loop over a side value: yields the element
list, or raises `TypeError` (carrying the current state) when the value is
not iterable. -/
def iterE (x : PyObj) (eff : Eff) : Except (PyErr × Eff) (List PyObj) :=
  match pyIter x with
  | none => .error (.typeError "object is not iterable", eff)
  | some els => .ok els

/-- The counter rebase step `update_uid_counter(self, idx)` as seen from
`add_edge`: on success the counter field is replaced by the rebased start
value; on a `TypeError` from `float(idx)` the already-advanced iterator
(sampled by the internal `next()`) is left behind and the error
propagates. -/
def rebaseE (i : PyObj) (eff : Eff) : Except (PyErr × Eff) Eff :=
  match update_uid_counter eff.g.edge_uid i with
  | (some e, c) => .error (e, { eff with g := { eff.g with edge_uid := c } })
  | (none, c) => .ok { eff with g := { eff.g with edge_uid := c } }

/-- The trailing duplicated block (lines 218-276), executed after a
successful `update_uid_counter` when `idx` was supplied: it re-validates the
spec, re-resolves `uid = idx`, re-checks the duplicate condition (warning and
returning when the id is present — which it always is at this point, the
edge having just been committed), and otherwise would re-ingest both sides by
direct iteration and rebase the counter a second time. -/
def trailingF (recAdd : Eff → PyObj → Except (PyErr × Eff) Eff) (eff : Eff)
    (members : PyObj) (i : PyObj) (attr : Attr) : Except (PyErr × Eff) Eff :=
  match spec2 members with
  | none => .error (.typeError "Directed edge must be a list or tuple of length 2!", eff)
  | some (tail, head) =>
    if hashable i = false then .error (.typeError "unhashable type", eff)
    else if amem eff.g.edge i then .ok { eff with warns := eff.warns + 1 }
    else if i = .pnone then .error (.xgiError "None cannot be a node or edge", eff)
    else
      let eff1 := { eff with g := { eff.g with edge := aset eff.g.edge i ⟨∅, ∅⟩ } }
      Except.bind (iterE tail eff1) (fun els =>
        Except.bind (foldE (trailingElemF recAdd i true) eff1 els) (fun eff2 =>
          Except.bind (iterE head eff2) (fun els2 =>
            Except.bind (foldE (trailingElemF recAdd i false) eff2 els2)
              (fun eff3 =>
                rebaseE i { eff3 with g := { eff3.g with
                  edge_attr := aset eff3.g.edge_attr i (updAttr [] attr) } }))))

/-- `add_edge` (lines 129-276).  Control flow of one call:
validate the spec; resolve `uid` (`next(self._edge_uid)` advances the counter
when `idx is None`); warn and return if `uid` is already an edge key; create
the empty edge record; process the tail side then the head side (edge-like
elements recurse with one unit of fuel consumed, modelling a Python stack
frame); attach the attributes; and, when `idx` was supplied, rebase the
counter through `update_uid_counter` and fall into the trailing duplicated
block.  Fuel exhaustion is Python's `RecursionError`. -/
def add_edge : Nat → Eff → PyObj → Option PyObj → Attr → Except (PyErr × Eff) Eff
  | 0, eff, _, _, _ =>
    .error (.recursionError "maximum recursion depth exceeded", eff)
  | fuel + 1, eff, members, idx, attr =>
    match spec2 members with
    | none =>
      .error (.typeError "Directed edge must be a list or tuple of length 2!", eff)
    | some (tail, head) =>
      let p : PyObj × Eff :=
        match idx with
        | none => (.pint (eff.g.edge_uid : Int),
            { eff with g := { eff.g with edge_uid := eff.g.edge_uid + 1 } })
        | some i => (i, eff)
      let uid := p.1
      let eff0 := p.2
      if hashable uid = false then .error (.typeError "unhashable type", eff0)
      else if amem eff0.g.edge uid then .ok { eff0 with warns := eff0.warns + 1 }
      else if uid = .pnone then
        .error (.xgiError "None cannot be a node or edge", eff0)
      else
        Except.bind (processSideF (fun e m => add_edge fuel e m none [])
            uid true { eff0 with g := { eff0.g with
              edge := aset eff0.g.edge uid ⟨∅, ∅⟩ } } tail)
          (fun effB =>
            Except.bind (processSideF (fun e m => add_edge fuel e m none [])
                uid false effB head)
              (fun effC =>
                let effD := { effC with g := { effC.g with
                  edge_attr := aset effC.g.edge_attr uid (updAttr [] attr) } }
                match idx with
                | none => .ok effD
                | some i =>
                  Except.bind (rebaseE i effD)
                    (fun effE =>
                      trailingF (fun e m => add_edge fuel e m none [])
                        effE members i attr)))

/-! ## `incidence_matrix` (linalg/incidence_matrix.py lines 4-75)

The function receives the node and edge id collections (`H.nodes`,
`H.edges`) and reads `H._edge`.  `members = H._edge[edge]` is the incidence
record — in Python a dict `{"in": set(...), "out": set(...)}` — and
`for node in members` iterates that dict, yielding its keys `"in"` and
`"out"` in insertion order.  Each yielded value is looked up in the plain
dict `node_dict` (a `KeyError` on a miss) and the triple
`(row, col, weight)` is recorded; the default weight is the constant 1. -/

/-- Iterating the Python dict `{"in": ..., "out": ...}` yields its keys. -/
def edgeDictKeys (_ : EdgeRec) : List PyObj := [.pstr "in", .pstr "out"]

/-- 0-based index of a key in an iteration-ordered id collection — the
`node_dict` / `edge_dict` built by `dict(zip(ids, range(n)))`. -/
def idxOf (l : List PyObj) (k : PyObj) : Option Nat :=
  match l with
  | [] => none
  | x :: xs =>
    if x = k then some 0
    else match idxOf xs k with
      | some n => some (n + 1)
      | none => none

/-- The inner loop body over one edge: look the edge record up in `H._edge`
(an `IDDict`, so a miss is `IDNotFound`), then for each value yielded by
iterating it, append `(node_dict[node], edge_dict[edge], 1)`. -/
def incEdgeEntries (nodes : List PyObj) (edges : List PyObj)
    (g : DiUberGraphs) (e : PyObj) : Except PyErr (List (Nat × Nat × Int)) :=
  match aget g.edge e with
  | none => .error (.idNotFound "ID not found")
  | some er =>
    let rec go : List PyObj → Except PyErr (List (Nat × Nat × Int))
      | [] => .ok []
      | k :: ks =>
        match idxOf nodes k with
        | none => .error (.keyError "KeyError in node_dict lookup")
        | some r =>
          match idxOf edges e with
          | none => .error (.keyError "KeyError in edge_dict lookup")
          | some c =>
            match go ks with
            | .error err => .error err
            | .ok rest => .ok ((r, c, 1) :: rest)
    go (edgeDictKeys er)

/-- `incidence_matrix` with the default constant-1 weight, returning the
`(rows, cols, data)` triples and the `(num_nodes, num_edges)` shape.  An
empty node or edge collection short-circuits to the empty 0×0 result. -/
def incidence_matrix (nodes : List PyObj) (edges : List PyObj)
    (g : DiUberGraphs) : Except PyErr (List (Nat × Nat × Int) × Nat × Nat) :=
  if edges.isEmpty || nodes.isEmpty then .ok ([], 0, 0)
  else
    let rec go : List PyObj → Except PyErr (List (Nat × Nat × Int))
      | [] => .ok []
      | e :: es =>
        match incEdgeEntries nodes edges g e with
        | .error err => .error err
        | .ok here =>
          match go es with
          | .error err => .error err
          | .ok rest => .ok (here ++ rest)
    match go edges with
    | .error err => .error err
    | .ok entries => .ok (entries, nodes.length, edges.length)

/-! ## Observation helpers for concrete runs -/

/-- The error value of a failed call, if any. -/
def errOf : Except (PyErr × Eff) Eff → Option PyErr
  | .error (e, _) => some e
  | .ok _ => none

/-- The state carried by a failed call (Python keeps partial mutations). -/
def errState : Except (PyErr × Eff) Eff → Option Eff
  | .error (_, eff) => some eff
  | .ok _ => none

/-- The state of a successful call, if any. -/
def okState : Except (PyErr × Eff) Eff → Option Eff
  | .error _ => none
  | .ok eff => some eff

/-! ## Association-list lemmas -/

section AlistLemmas

variable {α : Type} {β : Type} [DecidableEq α]

theorem aget_nil (k : α) : aget ([] : List (α × β)) k = none := rfl

theorem aget_aset_self (l : List (α × β)) (k : α) (v : β) :
    aget (aset l k v) k = some v := by
  induction l with
  | nil => simp [aset, aget]
  | cons p ps ih =>
    by_cases h : p.1 = k
    · simp [aset, aget, h]
    · simp [aset, aget, h, ih]

theorem aget_aset_of_ne (l : List (α × β)) (k k2 : α) (v : β) (h : k2 ≠ k) :
    aget (aset l k v) k2 = aget l k2 := by
  have hk : k ≠ k2 := Ne.symm h
  induction l with
  | nil => simp [aset, aget, hk]
  | cons p ps ih =>
    by_cases hp : p.1 = k
    · simp [aset, aget, hp, hk]
    · simp [aset, aget, hp, ih]

theorem amem_eq_isSome (l : List (α × β)) (k : α) :
    amem l k = (aget l k).isSome := by
  induction l with
  | nil => simp [amem, aget]
  | cons p ps ih =>
    by_cases h : p.1 = k <;> simp [amem, aget, h, ih]

theorem amem_aset_self (l : List (α × β)) (k : α) (v : β) :
    amem (aset l k v) k = true := by
  rw [amem_eq_isSome, aget_aset_self]
  rfl

theorem amem_aset_of_ne (l : List (α × β)) (k k2 : α) (v : β) (h : k2 ≠ k) :
    amem (aset l k v) k2 = amem l k2 := by
  rw [amem_eq_isSome, amem_eq_isSome, aget_aset_of_ne l k k2 v h]

theorem amem_aset_mono (l : List (α × β)) (k k2 : α) (v : β)
    (h : amem l k2 = true) : amem (aset l k v) k2 = true := by
  by_cases hk : k2 = k
  · subst hk
    exact amem_aset_self l k2 v
  · rwa [amem_aset_of_ne l k k2 v hk]

theorem length_aset_of_amem (l : List (α × β)) (k : α) (v : β)
    (h : amem l k = true) : (aset l k v).length = l.length := by
  induction l with
  | nil => simp [amem] at h
  | cons p ps ih =>
    by_cases hp : p.1 = k
    · simp [aset, hp]
    · simp only [amem, hp, if_false] at h
      simp [aset, hp, ih h]

theorem length_aset_of_not_amem (l : List (α × β)) (k : α) (v : β)
    (h : amem l k = false) : (aset l k v).length = l.length + 1 := by
  induction l with
  | nil => simp [aset]
  | cons p ps ih =>
    by_cases hp : p.1 = k
    · simp [amem, hp] at h
    · simp only [amem, hp, if_false] at h
      simp [aset, hp, ih h]

theorem aget_of_amem_false (l : List (α × β)) (k : α)
    (h : amem l k = false) : aget l k = none := by
  rw [amem_eq_isSome] at h
  cases hg : aget l k with
  | none => rfl
  | some v => rw [hg] at h; simp at h

end AlistLemmas

theorem aset_aset {α β : Type} [DecidableEq α] (l : List (α × β)) (k : α) (v w : β) :
    aset (aset l k v) k w = aset l k w := by
  induction l with
  | nil => simp [aset]
  | cons p ps ih =>
    by_cases hp : p.1 = k
    · simp [aset, hp]
    · simp [aset, hp, ih]

theorem amem_aset_eq_of_amem {α β : Type} [DecidableEq α] (l : List (α × β))
    (k k2 : α) (v : β) (h : amem l k = true) :
    amem (aset l k v) k2 = amem l k2 := by
  by_cases hk : k2 = k
  · subst hk
    rw [amem_aset_self, h]
  · rw [amem_aset_of_ne l k k2 v hk]

/-! ## Generic fold lemmas -/

theorem foldE_inv (P : Eff → Prop) (f : Eff → PyObj → Except (PyErr × Eff) Eff)
    (hf : ∀ eff x eff2, P eff → f eff x = .ok eff2 → P eff2) :
    ∀ xs eff eff3, P eff → foldE f eff xs = .ok eff3 → P eff3 := by
  intro xs
  induction xs with
  | nil =>
    intro eff eff3 hp hok
    simp only [foldE] at hok
    cases hok
    exact hp
  | cons x xs ih =>
    intro eff eff3 hp hok
    simp only [foldE] at hok
    cases hfx : f eff x with
    | error e => rw [hfx] at hok; cases hok
    | ok eff2 =>
      rw [hfx] at hok
      exact ih eff2 eff3 (hf eff x eff2 hp hfx) hok

/-! ## Anatomy of a successful member registration -/

/-- The node table after the existence check of `_add_node_to_edge`. -/
def ensuredNode (g : DiUberGraphs) (node : PyObj) : List (PyObj × NodeRec) :=
  if amem g.node node then g.node else aset g.node node ⟨∅, ∅⟩

/-- The node attribute table after the existence check. -/
def ensuredNodeAttr (g : DiUberGraphs) (node : PyObj) : List (PyObj × Attr) :=
  if amem g.node node then g.node_attr else aset g.node_attr node []

/-- A successful `_add_node_to_edge` call is exactly: ensure the node, add
`uid` to the node's side set, add the node to the edge's side set. -/
theorem addNodeToEdge_cases (eff : Eff) (uid node : PyObj) (isTail : Bool)
    (eff2 : Eff) (h : addNodeToEdge eff uid node isTail = .ok eff2) :
    ∃ nr1 er,
      aget (ensuredNode eff.g node) node = some nr1 ∧
      aget eff.g.edge uid = some er ∧
      eff2 = { eff with g := { eff.g with
        node := aset (ensuredNode eff.g node) node
          (if isTail then { nr1 with nOut := insert uid nr1.nOut }
           else { nr1 with nIn := insert uid nr1.nIn }),
        node_attr := ensuredNodeAttr eff.g node,
        edge := aset eff.g.edge uid
          (if isTail then { er with eIn := insert node er.eIn }
           else { er with eOut := insert node er.eOut }) } } := by
  unfold addNodeToEdge at h
  by_cases hh : hashable node = false
  · rw [if_pos hh] at h
    cases h
  rw [if_neg hh] at h
  by_cases hm : amem eff.g.node node
  · rw [if_pos hm] at h
    simp only at h
    cases hn : aget eff.g.node node with
    | none =>
      rw [hn] at h
      cases h
    | some nr =>
      rw [hn] at h
      simp only at h
      cases he : aget eff.g.edge uid with
      | none => rw [he] at h; cases h
      | some er =>
        rw [he] at h
        simp only at h
        cases h
        refine ⟨nr, er, ?_, rfl, ?_⟩
        · rw [ensuredNode, if_pos hm, hn]
        · rw [ensuredNode, if_pos hm, ensuredNodeAttr, if_pos hm]
  · rw [if_neg hm] at h
    by_cases hnn : node = PyObj.pnone
    · rw [if_pos hnn] at h
      cases h
    rw [if_neg hnn] at h
    simp only at h
    cases hn : aget (aset eff.g.node node (⟨∅, ∅⟩ : NodeRec)) node with
    | none =>
      rw [aget_aset_self] at hn
      cases hn
    | some nr =>
      rw [hn] at h
      simp only at h
      cases he : aget eff.g.edge uid with
      | none => rw [he] at h; cases h
      | some er =>
        rw [he] at h
        simp only at h
        cases h
        refine ⟨nr, er, ?_, rfl, ?_⟩
        · rw [ensuredNode, if_neg hm]
          exact hn
        · rw [ensuredNode, if_neg hm, ensuredNodeAttr, if_neg hm]

/-! ## Bipartite consistency -/

/-- The side set of a node record: its `out` set for the tail side (`b =
true`), its `in` set for the head side. -/
def nside (b : Bool) (nr : NodeRec) : Finset PyObj :=
  if b then nr.nOut else nr.nIn

/-- The side set of an edge record: its tail member set for `b = true`, its
head member set otherwise. -/
def eside (b : Bool) (er : EdgeRec) : Finset PyObj :=
  if b then er.eIn else er.eOut

/-- Node `n` records edge `e` on side `b`. -/
def nodeHas (g : DiUberGraphs) (b : Bool) (n e : PyObj) : Prop :=
  ∃ nr, aget g.node n = some nr ∧ e ∈ nside b nr

/-- Edge `e` records node `n` as a member on side `b`. -/
def edgeHas (g : DiUberGraphs) (b : Bool) (n e : PyObj) : Prop :=
  ∃ er, aget g.edge e = some er ∧ n ∈ eside b er

/-- Bipartite consistency: a node lists an edge on a side exactly when that
edge lists the node as a member of that side. -/
def bip (g : DiUberGraphs) : Prop :=
  ∀ b n e, nodeHas g b n e ↔ edgeHas g b n e

/-- The claim's phrasing of bipartite consistency, restricted to node tokens
and edge ids present in the tables. -/
def bipClaim (g : DiUberGraphs) : Prop :=
  ∀ n nr e er, aget g.node n = some nr → aget g.edge e = some er →
    ((e ∈ nr.nOut ↔ n ∈ er.eIn) ∧ (e ∈ nr.nIn ↔ n ∈ er.eOut))

theorem bip_claimForm (g : DiUberGraphs) (hb : bip g) : bipClaim g := by
  intro n nr e er hn he
  constructor
  · have h1 := hb true n e
    simp only [nodeHas, edgeHas, nside, eside, hn, he, if_true] at h1
    simpa using h1
  · have h2 := hb false n e
    simp only [nodeHas, edgeHas, nside, eside, hn, he, Bool.false_eq_true,
      if_false] at h2
    simpa using h2

theorem aget_ensured_of_ne (g : DiUberGraphs) (node m : PyObj) (h : m ≠ node) :
    aget (ensuredNode g node) m = aget g.node m := by
  rw [ensuredNode]
  split
  · rfl
  · exact aget_aset_of_ne _ _ _ _ h

theorem exists_get_iff {γ : Type} (o : Option γ) (v : γ) (P : γ → Prop)
    (h : o = some v) : (∃ x, o = some x ∧ P x) ↔ P v := by
  subst h
  simp

theorem bip_addNodeToEdge (eff : Eff) (uid node : PyObj) (isTail : Bool)
    (eff2 : Eff) (hb : bip eff.g)
    (h : addNodeToEdge eff uid node isTail = .ok eff2) : bip eff2.g := by
  obtain ⟨nr1, er, hn, he, rfl⟩ := addNodeToEdge_cases _ _ _ _ _ h
  set nr2 := (if isTail then { nr1 with nOut := insert uid nr1.nOut }
      else { nr1 with nIn := insert uid nr1.nIn }) with hnr2
  set er2 := (if isTail then { er with eIn := insert node er.eIn }
      else { er with eOut := insert node er.eOut }) with her2
  have hS1 : ∀ b, nside b nr2 =
      if b = isTail then insert uid (nside b nr1) else nside b nr1 := by
    intro b
    cases isTail <;> cases b <;> simp [nside, hnr2]
  have hS2 : ∀ b, eside b er2 =
      if b = isTail then insert node (eside b er) else eside b er := by
    intro b
    cases isTail <;> cases b <;> simp [eside, her2]
  have hnr1 : aget eff.g.node node = some nr1 ∨
      (aget eff.g.node node = none ∧ nr1 = ⟨∅, ∅⟩) := by
    by_cases hm : amem eff.g.node node
    · left
      rwa [ensuredNode, if_pos hm] at hn
    · right
      rw [ensuredNode, if_neg hm, aget_aset_self] at hn
      exact ⟨aget_of_amem_false _ _ (by simpa using hm),
        (Option.some.inj hn).symm⟩
  have hF1 : aget (aset (ensuredNode eff.g node) node nr2) node = some nr2 :=
    aget_aset_self _ _ _
  have hF2 : ∀ m, m ≠ node →
      aget (aset (ensuredNode eff.g node) node nr2) m = aget eff.g.node m := by
    intro m hm
    rw [aget_aset_of_ne _ _ _ _ hm, aget_ensured_of_ne _ _ _ hm]
  have hF3 : aget (aset eff.g.edge uid er2) uid = some er2 :=
    aget_aset_self _ _ _
  have hF4 : ∀ e2, e2 ≠ uid →
      aget (aset eff.g.edge uid er2) e2 = aget eff.g.edge e2 :=
    fun e2 h2 => aget_aset_of_ne _ _ _ _ h2
  intro b n e
  simp only [nodeHas, edgeHas]
  by_cases hnn : n = node <;> by_cases hee : e = uid
  · subst hnn
    subst hee
    rw [exists_get_iff _ _ _ hF1, exists_get_iff _ _ _ hF3, hS1, hS2]
    by_cases hbb : b = isTail
    · simp [hbb]
    · rw [if_neg hbb, if_neg hbb]
      rcases hnr1 with hg | ⟨hg, rfl⟩
      · have hchain := hb b n e
        rw [nodeHas, exists_get_iff _ _ _ hg, edgeHas,
          exists_get_iff _ _ _ he] at hchain
        exact hchain
      · have hempty : nside b (⟨∅, ∅⟩ : NodeRec) = ∅ := by
          cases b <;> simp [nside]
        rw [hempty]
        have hchain := hb b n e
        rw [nodeHas, edgeHas, exists_get_iff _ _ _ he] at hchain
        simp only [hg, false_and, exists_const] at hchain
        simp [← hchain]
  · subst hnn
    rw [exists_get_iff _ _ _ hF1, hF4 e hee, hS1]
    have hmm : e ∈ (if b = isTail then insert uid (nside b nr1)
        else nside b nr1) ↔ e ∈ nside b nr1 := by
      split
      · simp [Finset.mem_insert, hee]
      · exact Iff.rfl
    rw [hmm]
    rcases hnr1 with hg | ⟨hg, rfl⟩
    · have hchain := hb b n e
      rw [nodeHas, exists_get_iff _ _ _ hg, edgeHas] at hchain
      exact hchain
    · have hempty : nside b (⟨∅, ∅⟩ : NodeRec) = ∅ := by
        cases b <;> simp [nside]
      rw [hempty]
      have hchain := hb b n e
      rw [nodeHas, edgeHas] at hchain
      simp only [hg, false_and, exists_const] at hchain
      simp [← hchain]
  · subst hee
    rw [hF2 n hnn, exists_get_iff _ _ _ hF3, hS2]
    have hmm : n ∈ (if b = isTail then insert node (eside b er)
        else eside b er) ↔ n ∈ eside b er := by
      split
      · simp [Finset.mem_insert, hnn]
      · exact Iff.rfl
    rw [hmm]
    have hchain := hb b n e
    rw [nodeHas, edgeHas, exists_get_iff _ _ _ he] at hchain
    exact hchain
  · rw [hF2 n hnn, hF4 e hee]
    exact hb b n e

/-! ## Generic invariant propagation through the ingestion recursion -/

theorem addNodeToEdge_frame (eff : Eff) (uid node : PyObj) (b : Bool)
    (eff2 : Eff) (h : addNodeToEdge eff uid node b = .ok eff2) :
    eff2.warns = eff.warns ∧ eff2.g.edge_uid = eff.g.edge_uid ∧
    eff2.g.edge_attr = eff.g.edge_attr ∧
    (∀ k, amem eff2.g.edge k = amem eff.g.edge k) := by
  obtain ⟨nr1, er, hn, he, rfl⟩ := addNodeToEdge_cases _ _ _ _ _ h
  refine ⟨rfl, rfl, rfl, fun k => ?_⟩
  exact amem_aset_eq_of_amem _ _ _ _ (by rw [amem_eq_isSome, he]; rfl)

theorem update_uid_counter_ge (c : Nat) (i : PyObj) :
    c ≤ (update_uid_counter c i).2 := by
  cases i with
  | pint n =>
    simp only [update_uid_counter]
    split
    · next hle => omega
    · exact le_refl c
  | pnone => simp [update_uid_counter]
  | pfloatNI t => simp [update_uid_counter]
  | pstr s => simp [update_uid_counter]
  | pother k => simp [update_uid_counter]
  | plist xs => simp [update_uid_counter]
  | ptup xs => simp [update_uid_counter]

/-- A predicate on effectful states closed under every primitive state
change performed by the ingestion code: emitting a warning, advancing the
counter, creating a fresh empty edge record, writing an edge attribute map,
and registering a member through `_add_node_to_edge`. -/
structure StepClosed (P : Eff → Prop) : Prop where
  hwarns : ∀ eff, P eff → P { eff with warns := eff.warns + 1 }
  hcounter : ∀ eff c, eff.g.edge_uid ≤ c → P eff →
    P { eff with g := { eff.g with edge_uid := c } }
  hcreate : ∀ eff uid, amem eff.g.edge uid = false → P eff →
    P { eff with g := { eff.g with edge := aset eff.g.edge uid ⟨∅, ∅⟩ } }
  hattr : ∀ eff uid a, P eff →
    P { eff with g := { eff.g with edge_attr := aset eff.g.edge_attr uid a } }
  hnode : ∀ eff uid node b eff2, P eff →
    addNodeToEdge eff uid node b = .ok eff2 → P eff2


section Closure

variable {P : Eff → Prop} (hP : StepClosed P)
variable {recAdd : Eff → PyObj → Except (PyErr × Eff) Eff}
variable (hrec : ∀ eff m eff2, P eff → recAdd eff m = .ok eff2 → P eff2)

include hP hrec

theorem processSubF_closed (uid : PyObj) (b : Bool) :
    ∀ eff sub eff2, P eff → processSubF recAdd uid b eff sub = .ok eff2 →
      P eff2 := by
  intro eff sub eff2 hp h
  unfold processSubF at h
  split at h
  · exact hrec _ _ _ hp h
  · exact hP.hnode _ _ _ _ _ hp h

theorem processElementF_closed (uid : PyObj) (b : Bool) :
    ∀ eff el eff2, P eff → processElementF recAdd uid b eff el = .ok eff2 →
      P eff2 := by
  intro eff el eff2 hp h
  unfold processElementF at h
  split at h
  · exact hrec _ _ _ hp h
  · split at h
    · exact foldE_inv P _ (fun e x e2 hpe hh =>
        processSubF_closed hP hrec uid b e x e2 hpe hh) _ _ _ hp h
    · exact foldE_inv P _ (fun e x e2 hpe hh =>
        processSubF_closed hP hrec uid b e x e2 hpe hh) _ _ _ hp h
    · exact hP.hnode _ _ _ _ _ hp h

theorem processSideF_closed (uid : PyObj) (b : Bool) :
    ∀ eff side eff2, P eff → processSideF recAdd uid b eff side = .ok eff2 →
      P eff2 := by
  intro eff side eff2 hp h
  unfold processSideF at h
  split at h
  · exact foldE_inv P _ (fun e x e2 hpe hh =>
      processElementF_closed hP hrec uid b e x e2 hpe hh) _ _ _ hp h
  · exact foldE_inv P _ (fun e x e2 hpe hh =>
      processElementF_closed hP hrec uid b e x e2 hpe hh) _ _ _ hp h
  · exact processElementF_closed hP hrec uid b eff side eff2 hp h

theorem trailingElemF_closed (uid : PyObj) (b : Bool) :
    ∀ eff el eff2, P eff → trailingElemF recAdd uid b eff el = .ok eff2 →
      P eff2 := by
  intro eff el eff2 hp h
  unfold trailingElemF at h
  split at h
  · exact hrec _ _ _ hp h
  · exact hP.hnode _ _ _ _ _ hp h

end Closure

theorem bindE_ok {α β : Type} (x : Except (PyErr × Eff) α)
    (f : α → Except (PyErr × Eff) β) (r : β)
    (h : Except.bind x f = .ok r) : ∃ m, x = .ok m ∧ f m = .ok r := by
  cases x with
  | error e => simp [Except.bind] at h
  | ok m => exact ⟨m, rfl, h⟩

theorem rebaseE_ok (i : PyObj) (eff eff2 : Eff)
    (h : rebaseE i eff = .ok eff2) :
    ∃ c, update_uid_counter eff.g.edge_uid i = (none, c) ∧
      eff.g.edge_uid ≤ c ∧
      eff2 = { eff with g := { eff.g with edge_uid := c } } := by
  unfold rebaseE at h
  cases hu : update_uid_counter eff.g.edge_uid i with
  | mk o c =>
    rw [hu] at h
    cases o with
    | some e => cases h
    | none =>
      cases h
      refine ⟨c, rfl, ?_, rfl⟩
      have hge := update_uid_counter_ge eff.g.edge_uid i
      rw [hu] at hge
      exact hge

section Closure2

variable {P : Eff → Prop} (hP : StepClosed P)
variable {recAdd : Eff → PyObj → Except (PyErr × Eff) Eff}
variable (hrec : ∀ eff m eff2, P eff → recAdd eff m = .ok eff2 → P eff2)

include hP hrec

theorem trailingF_closed :
    ∀ eff members i attr eff2, P eff →
      trailingF recAdd eff members i attr = .ok eff2 → P eff2 := by
  intro eff members i attr eff2 hp h
  unfold trailingF at h
  split at h
  · cases h
  split at h
  · cases h
  split at h
  · cases h
    exact hP.hwarns _ hp
  split at h
  · cases h
  rename_i tail head hsp hhash hdup hnn
  have hp1 : P { eff with g := { eff.g with
      edge := aset eff.g.edge i ⟨∅, ∅⟩ } } :=
    hP.hcreate _ _ (by simpa using hdup) hp
  obtain ⟨els, hit, h⟩ := bindE_ok _ _ _ h
  obtain ⟨eff3, hf1, h⟩ := bindE_ok _ _ _ h
  have hp3 : P eff3 := foldE_inv P _ (fun e x e2 hpe hh =>
    trailingElemF_closed hP hrec i true e x e2 hpe hh) _ _ _ hp1 hf1
  obtain ⟨els2, hit2, h⟩ := bindE_ok _ _ _ h
  obtain ⟨eff4, hf2, h⟩ := bindE_ok _ _ _ h
  have hp4 : P eff4 := foldE_inv P _ (fun e x e2 hpe hh =>
    trailingElemF_closed hP hrec i false e x e2 hpe hh) _ _ _ hp3 hf2
  have hp5 : P { eff4 with g := { eff4.g with
      edge_attr := aset eff4.g.edge_attr i (updAttr [] attr) } } :=
    hP.hattr _ _ _ hp4
  obtain ⟨c, hu, hge, rfl⟩ := rebaseE_ok _ _ _ h
  exact hP.hcounter _ c hge hp5

end Closure2

theorem add_edge_closed (P : Eff → Prop) (hP : StepClosed P) :
    ∀ fuel eff members idx attr eff2, P eff →
      add_edge fuel eff members idx attr = .ok eff2 → P eff2 := by
  intro fuel
  induction fuel with
  | zero =>
    intro eff members idx attr eff2 hp h
    simp only [add_edge] at h
    cases h
  | succ fuel ih =>
    intro eff members idx attr eff2 hp h
    have hrec : ∀ e m e2, P e →
        (fun e m => add_edge fuel e m none []) e m = .ok e2 → P e2 :=
      fun e m e2 hpe hh => ih e m none [] e2 hpe hh
    cases idx with
    | none =>
      simp only [add_edge] at h
      split at h
      · cases h
      rename_i th tail head hsp
      split at h
      · cases h
      split at h
      · cases h
        exact hP.hwarns _ (hP.hcounter _ _ (Nat.le_succ _) hp)
      split at h
      · cases h
      rename_i hhash hdup hnn
      have hp0 : P { eff with g := { eff.g with
          edge_uid := eff.g.edge_uid + 1 } } :=
        hP.hcounter _ _ (Nat.le_succ _) hp
      have hp1 : P _ := hP.hcreate
        { eff with g := { eff.g with edge_uid := eff.g.edge_uid + 1 } }
        (.pint (eff.g.edge_uid : Int)) (by simpa using hdup) hp0
      obtain ⟨effB, hps, h⟩ := bindE_ok _ _ _ h
      have hpB : P effB := processSideF_closed hP hrec _ _ _ _ _ hp1 hps
      obtain ⟨effC, hps2, h⟩ := bindE_ok _ _ _ h
      have hpC : P effC := processSideF_closed hP hrec _ _ _ _ _ hpB hps2
      cases h
      exact hP.hattr _ _ _ hpC
    | some i =>
      simp only [add_edge] at h
      split at h
      · cases h
      rename_i th tail head hsp
      split at h
      · cases h
      split at h
      · cases h
        exact hP.hwarns _ hp
      split at h
      · cases h
      rename_i hhash hdup hnn
      have hp1 : P _ := hP.hcreate eff i (by simpa using hdup) hp
      obtain ⟨effB, hps, h⟩ := bindE_ok _ _ _ h
      have hpB : P effB := processSideF_closed hP hrec _ _ _ _ _ hp1 hps
      obtain ⟨effC, hps2, h⟩ := bindE_ok _ _ _ h
      have hpC : P effC := processSideF_closed hP hrec _ _ _ _ _ hpB hps2
      obtain ⟨effE, hre, h⟩ := bindE_ok _ _ _ h
      obtain ⟨c, hu, hge, rfl⟩ := rebaseE_ok _ _ _ hre
      have hpD : P { effC with g := { effC.g with
          edge_attr := aset effC.g.edge_attr i (updAttr [] attr) } } :=
        hP.hattr _ _ _ hpC
      exact trailingF_closed hP hrec _ members i attr eff2
        (hP.hcounter _ c hge hpD) h

/-! ## Instantiated invariants -/

theorem bip_tables (g1 g2 : DiUberGraphs) (hn : g2.node = g1.node)
    (he : g2.edge = g1.edge) (hb : bip g1) : bip g2 := by
  intro b n e
  unfold nodeHas edgeHas
  rw [hn, he]
  exact hb b n e

theorem bip_createFresh (g : DiUberGraphs) (uid : PyObj)
    (hfresh : amem g.edge uid = false) (hb : bip g) :
    bip { g with edge := aset g.edge uid ⟨∅, ∅⟩ } := by
  intro b n e
  unfold nodeHas edgeHas
  show (∃ nr, aget g.node n = some nr ∧ e ∈ nside b nr) ↔
    (∃ er, aget (aset g.edge uid ⟨∅, ∅⟩) e = some er ∧ n ∈ eside b er)
  by_cases he : e = uid
  · subst he
    rw [exists_get_iff _ _ _ (aget_aset_self g.edge e ⟨∅, ∅⟩)]
    have hes : eside b (⟨∅, ∅⟩ : EdgeRec) = ∅ := by cases b <;> simp [eside]
    rw [hes]
    constructor
    · intro hex
      exfalso
      obtain ⟨er, hget, _⟩ := (hb b n e).mp hex
      rw [aget_of_amem_false _ _ hfresh] at hget
      cases hget
    · intro hmem
      exact absurd hmem (Finset.not_mem_empty n)
  · rw [aget_aset_of_ne _ _ _ _ he]
    exact hb b n e

theorem stepClosed_bip : StepClosed (fun eff => bip eff.g) := by
  constructor
  · intro eff hp
    exact hp
  · intro eff c hc hp
    exact bip_tables eff.g _ rfl rfl hp
  · intro eff uid hfresh hp
    exact bip_createFresh eff.g uid hfresh hp
  · intro eff uid a hp
    exact bip_tables eff.g _ rfl rfl hp
  · intro eff uid node b eff2 hp h
    exact bip_addNodeToEdge eff uid node b eff2 hp h

/-- Bipartite consistency is preserved by every fuel-indexed `add_edge`
call that returns normally. -/
theorem add_edge_bip (fuel : Nat) (eff : Eff) (m : PyObj) (idx : Option PyObj)
    (attr : Attr) (eff2 : Eff) (hb : bip eff.g)
    (h : add_edge fuel eff m idx attr = .ok eff2) : bip eff2.g :=
  add_edge_closed _ stepClosed_bip fuel eff m idx attr eff2 hb h

theorem bip_createFreshNode (g g2 : DiUberGraphs) (node : PyObj)
    (hfresh : amem g.node node = false)
    (hn : g2.node = aset g.node node ⟨∅, ∅⟩) (he : g2.edge = g.edge)
    (hb : bip g) : bip g2 := by
  intro b n e
  unfold nodeHas edgeHas
  rw [hn, he]
  by_cases hnn : n = node
  · subst hnn
    rw [exists_get_iff _ _ _ (aget_aset_self _ _ _)]
    have hns : nside b (⟨∅, ∅⟩ : NodeRec) = ∅ := by cases b <;> simp [nside]
    rw [hns]
    constructor
    · intro hmem
      exact absurd hmem (Finset.not_mem_empty e)
    · intro hex
      exfalso
      obtain ⟨nr, hget, _⟩ := (hb b n e).mpr hex
      rw [aget_of_amem_false _ _ hfresh] at hget
      cases hget
  · rw [aget_aset_of_ne _ _ _ _ hnn]
    exact hb b n e

/-- Bipartite consistency is preserved by every `add_node` call that
returns normally. -/
theorem add_node_bip (g : DiUberGraphs) (node : PyObj) (attr : Attr)
    (g2 : DiUberGraphs) (hb : bip g) (h : add_node g node attr = .ok g2) :
    bip g2 := by
  unfold add_node at h
  split at h
  · cases h
  split at h
  · split at h
    · cases h
      exact bip_tables g _ rfl rfl hb
    · cases h
  · split at h
    · cases h
    · rename_i hmem hnn
      cases h
      exact bip_createFreshNode g _ node (by simpa using hmem) rfl rfl hb

theorem stepClosed_keyMono (k : PyObj) :
    StepClosed (fun eff => amem eff.g.edge k = true) := by
  constructor
  · intro eff hp
    exact hp
  · intro eff c hc hp
    exact hp
  · intro eff uid hfresh hp
    exact amem_aset_mono _ _ _ _ hp
  · intro eff uid a hp
    exact hp
  · intro eff uid node b eff2 hp h
    rw [(addNodeToEdge_frame _ _ _ _ _ h).2.2.2 k]
    exact hp

/-- Edge-table keys only grow across a successful `add_edge` call. -/
theorem add_edge_keyMono (fuel : Nat) (eff : Eff) (m : PyObj)
    (idx : Option PyObj) (attr : Attr) (eff2 : Eff)
    (h : add_edge fuel eff m idx attr = .ok eff2) :
    ∀ k, amem eff.g.edge k = true → amem eff2.g.edge k = true :=
  fun k hk =>
    add_edge_closed _ (stepClosed_keyMono k) fuel eff m idx attr eff2 hk h

theorem stepClosed_counterGe (c0 : Nat) :
    StepClosed (fun eff => c0 ≤ eff.g.edge_uid) := by
  constructor
  · intro eff hp
    exact hp
  · intro eff c hc hp
    exact le_trans hp hc
  · intro eff uid hfresh hp
    exact hp
  · intro eff uid a hp
    exact hp
  · intro eff uid node b eff2 hp h
    rw [(addNodeToEdge_frame _ _ _ _ _ h).2.1]
    exact hp

/-- The allocator counter never decreases across a successful `add_edge`. -/
theorem add_edge_counterMono (fuel : Nat) (eff : Eff) (m : PyObj)
    (idx : Option PyObj) (attr : Attr) (eff2 : Eff)
    (h : add_edge fuel eff m idx attr = .ok eff2) :
    eff.g.edge_uid ≤ eff2.g.edge_uid :=
  add_edge_closed _ (stepClosed_counterGe eff.g.edge_uid) fuel eff m idx attr
    eff2 (le_refl _) h

/-! ## New integer edge ids are dominated by the final counter value -/

theorem amem_aset_inv {α β : Type} [DecidableEq α] (l : List (α × β))
    (k k2 : α) (v : β) (h : amem (aset l k v) k2 = true) :
    k2 = k ∨ amem l k2 = true := by
  by_cases hk : k2 = k
  · exact Or.inl hk
  · rw [amem_aset_of_ne l k k2 v hk] at h
    exact Or.inr h

theorem update_uid_counter_int_lt (c0 c : Nat) (z : Int)
    (h : update_uid_counter c0 (.pint z) = (none, c)) : z < (c : Int) := by
  simp only [update_uid_counter] at h
  split at h
  · next hle =>
    cases h
    omega
  · next hlt =>
    cases h
    omega

/-- Relation between the states before and after a fragment of ingestion
work: the counter has not decreased, and every integer edge key of the
final state was either already present or is strictly below the final
counter. -/
def growsBounded (eff eff2 : Eff) : Prop :=
  eff.g.edge_uid ≤ eff2.g.edge_uid ∧
  ∀ z : Int, amem eff2.g.edge (.pint z) = true →
    amem eff.g.edge (.pint z) = true ∨ z < (eff2.g.edge_uid : Int)

theorem growsBounded_refl (eff : Eff) : growsBounded eff eff :=
  ⟨le_refl _, fun _ hz => Or.inl hz⟩

theorem growsBounded_trans {a b c : Eff} (h1 : growsBounded a b)
    (h2 : growsBounded b c) : growsBounded a c := by
  refine ⟨le_trans h1.1 h2.1, fun z hz => ?_⟩
  rcases h2.2 z hz with hb | hlt
  · rcases h1.2 z hb with ha | hlt2
    · exact Or.inl ha
    · right
      have : (b.g.edge_uid : Int) ≤ (c.g.edge_uid : Int) := by
        exact_mod_cast h2.1
      omega
  · exact Or.inr hlt

theorem addNodeToEdge_growsBounded (eff : Eff) (uid node : PyObj) (b : Bool)
    (eff2 : Eff) (h : addNodeToEdge eff uid node b = .ok eff2) :
    growsBounded eff eff2 := by
  obtain ⟨hw, hc, ha, hk⟩ := addNodeToEdge_frame _ _ _ _ _ h
  refine ⟨le_of_eq hc.symm, fun z hz => Or.inl ?_⟩
  rw [← hk]
  exact hz

theorem foldE_growsBounded (f : Eff → PyObj → Except (PyErr × Eff) Eff)
    (hf : ∀ eff x eff2, f eff x = .ok eff2 → growsBounded eff eff2) :
    ∀ xs eff eff2, foldE f eff xs = .ok eff2 → growsBounded eff eff2 := by
  intro xs
  induction xs with
  | nil =>
    intro eff eff2 h
    simp only [foldE] at h
    cases h
    exact growsBounded_refl _
  | cons x xs ih =>
    intro eff eff2 h
    simp only [foldE] at h
    cases hfx : f eff x with
    | error e => rw [hfx] at h; cases h
    | ok eff1 =>
      rw [hfx] at h
      exact growsBounded_trans (hf eff x eff1 hfx) (ih eff1 eff2 h)

section GrowsBounded

variable {recAdd : Eff → PyObj → Except (PyErr × Eff) Eff}
variable (hrec : ∀ eff m eff2, recAdd eff m = .ok eff2 → growsBounded eff eff2)

include hrec

theorem processSubF_growsBounded (uid : PyObj) (b : Bool) :
    ∀ eff sub eff2, processSubF recAdd uid b eff sub = .ok eff2 →
      growsBounded eff eff2 := by
  intro eff sub eff2 h
  unfold processSubF at h
  split at h
  · exact hrec _ _ _ h
  · exact addNodeToEdge_growsBounded _ _ _ _ _ h

theorem processElementF_growsBounded (uid : PyObj) (b : Bool) :
    ∀ eff el eff2, processElementF recAdd uid b eff el = .ok eff2 →
      growsBounded eff eff2 := by
  intro eff el eff2 h
  unfold processElementF at h
  split at h
  · exact hrec _ _ _ h
  · split at h
    · exact foldE_growsBounded _ (fun e x e2 hh =>
        processSubF_growsBounded hrec uid b e x e2 hh) _ _ _ h
    · exact foldE_growsBounded _ (fun e x e2 hh =>
        processSubF_growsBounded hrec uid b e x e2 hh) _ _ _ h
    · exact addNodeToEdge_growsBounded _ _ _ _ _ h

theorem processSideF_growsBounded (uid : PyObj) (b : Bool) :
    ∀ eff side eff2, processSideF recAdd uid b eff side = .ok eff2 →
      growsBounded eff eff2 := by
  intro eff side eff2 h
  unfold processSideF at h
  split at h
  · exact foldE_growsBounded _ (fun e x e2 hh =>
      processElementF_growsBounded hrec uid b e x e2 hh) _ _ _ h
  · exact foldE_growsBounded _ (fun e x e2 hh =>
      processElementF_growsBounded hrec uid b e x e2 hh) _ _ _ h
  · exact processElementF_growsBounded hrec uid b eff side eff2 h

theorem trailingElemF_growsBounded (uid : PyObj) (b : Bool) :
    ∀ eff el eff2, trailingElemF recAdd uid b eff el = .ok eff2 →
      growsBounded eff eff2 := by
  intro eff el eff2 h
  unfold trailingElemF at h
  split at h
  · exact hrec _ _ _ h
  · exact addNodeToEdge_growsBounded _ _ _ _ _ h

theorem trailingF_growsBounded :
    ∀ eff members i attr eff2,
      trailingF recAdd eff members i attr = .ok eff2 →
      growsBounded eff eff2 := by
  intro eff members i attr eff2 h
  unfold trailingF at h
  split at h
  · cases h
  split at h
  · cases h
  split at h
  · cases h
    exact ⟨le_refl _, fun z hz => Or.inl hz⟩
  split at h
  · cases h
  rename_i tail head hsp hhash hdup hnn
  obtain ⟨els, hit, h⟩ := bindE_ok _ _ _ h
  obtain ⟨eff3, hf1, h⟩ := bindE_ok _ _ _ h
  obtain ⟨els2, hit2, h⟩ := bindE_ok _ _ _ h
  obtain ⟨eff4, hf2, h⟩ := bindE_ok _ _ _ h
  obtain ⟨c, hu, hge, rfl⟩ := rebaseE_ok _ _ _ h
  have hg1 : growsBounded { eff with g := { eff.g with
      edge := aset eff.g.edge i ⟨∅, ∅⟩ } } eff4 :=
    growsBounded_trans
      (foldE_growsBounded _ (fun e x e2 hh =>
        trailingElemF_growsBounded hrec i true e x e2 hh) _ _ _ hf1)
      (foldE_growsBounded _ (fun e x e2 hh =>
        trailingElemF_growsBounded hrec i false e x e2 hh) _ _ _ hf2)
  have hg1c : eff.g.edge_uid ≤ eff4.g.edge_uid := hg1.1
  have hgec : eff4.g.edge_uid ≤ c := hge
  refine ⟨?_, fun z hz => ?_⟩
  · show eff.g.edge_uid ≤ c
    exact le_trans hg1c hgec
  · have hz4 : amem eff4.g.edge (.pint z) = true := hz
    show amem eff.g.edge (.pint z) = true ∨ z < (c : Int)
    rcases hg1.2 z hz4 with hmem | hlt
    · rcases amem_aset_inv _ _ _ _ hmem with hik | hold
      · right
        rw [← hik] at hu
        exact update_uid_counter_int_lt _ _ _ hu
      · exact Or.inl hold
    · right
      have hlt2 : z < (eff4.g.edge_uid : Int) := hlt
      have hcast : (eff4.g.edge_uid : Int) ≤ (c : Int) := by
        exact_mod_cast hgec
      omega

end GrowsBounded

/-- Every successful `add_edge` call relates its input and output states by
`growsBounded`: the counter does not decrease and every newly committed
integer-valued edge id is strictly below the final counter value. -/
theorem add_edge_growsBounded :
    ∀ fuel eff members idx attr eff2,
      add_edge fuel eff members idx attr = .ok eff2 →
      growsBounded eff eff2 := by
  intro fuel
  induction fuel with
  | zero =>
    intro eff members idx attr eff2 h
    simp only [add_edge] at h
    cases h
  | succ fuel ih =>
    intro eff members idx attr eff2 h
    have hrec : ∀ e m e2, (fun e m => add_edge fuel e m none []) e m = .ok e2 →
        growsBounded e e2 := fun e m e2 hh => ih e m none [] e2 hh
    cases idx with
    | none =>
      simp only [add_edge] at h
      split at h
      · cases h
      rename_i th tail head hsp
      split at h
      · cases h
      split at h
      · cases h
        exact ⟨Nat.le_succ _, fun z hz => Or.inl hz⟩
      split at h
      · cases h
      rename_i hhash hdup hnn
      obtain ⟨effB, hps, h⟩ := bindE_ok _ _ _ h
      obtain ⟨effC, hps2, h⟩ := bindE_ok _ _ _ h
      cases h
      have hg1 : growsBounded { eff with g := { eff.g with
          edge_uid := eff.g.edge_uid + 1,
          edge := aset eff.g.edge (.pint (eff.g.edge_uid : Int)) ⟨∅, ∅⟩ } }
          effC :=
        growsBounded_trans
          (processSideF_growsBounded hrec _ _ _ _ _ hps)
          (processSideF_growsBounded hrec _ _ _ _ _ hps2)
      have hg1c : eff.g.edge_uid + 1 ≤ effC.g.edge_uid := hg1.1
      refine ⟨?_, fun z hz => ?_⟩
      · show eff.g.edge_uid ≤ effC.g.edge_uid
        omega
      · have hzC : amem effC.g.edge (.pint z) = true := hz
        show amem eff.g.edge (.pint z) = true ∨ z < (effC.g.edge_uid : Int)
        rcases hg1.2 z hzC with hmem | hlt
        · rcases amem_aset_inv _ _ _ _ hmem with hik | hold
          · right
            have hz2 : z = (eff.g.edge_uid : Int) := by injection hik
            have hfin : (eff.g.edge_uid + 1 : Int) ≤ (effC.g.edge_uid : Int) := by
              exact_mod_cast hg1c
            omega
          · exact Or.inl hold
        · exact Or.inr hlt
    | some i =>
      simp only [add_edge] at h
      split at h
      · cases h
      rename_i th tail head hsp
      split at h
      · cases h
      split at h
      · cases h
        exact ⟨le_refl _, fun z hz => Or.inl hz⟩
      split at h
      · cases h
      rename_i hhash hdup hnn
      obtain ⟨effB, hps, h⟩ := bindE_ok _ _ _ h
      obtain ⟨effC, hps2, h⟩ := bindE_ok _ _ _ h
      obtain ⟨effE, hre, h⟩ := bindE_ok _ _ _ h
      obtain ⟨c, hu, hge, rfl⟩ := rebaseE_ok _ _ _ hre
      have hg1 : growsBounded { eff with g := { eff.g with
          edge := aset eff.g.edge i ⟨∅, ∅⟩ } } effC :=
        growsBounded_trans
          (processSideF_growsBounded hrec _ _ _ _ _ hps)
          (processSideF_growsBounded hrec _ _ _ _ _ hps2)
      have hg2 : growsBounded
          { effC with g := { effC.g with
              edge_attr := aset effC.g.edge_attr i (updAttr [] attr),
              edge_uid := c } } eff2 :=
        trailingF_growsBounded hrec _ members i attr eff2 h
      have hg1c : eff.g.edge_uid ≤ effC.g.edge_uid := hg1.1
      have hgec : effC.g.edge_uid ≤ c := hge
      have hg2c : c ≤ eff2.g.edge_uid := hg2.1
      refine ⟨?_, fun z hz => ?_⟩
      · omega
      · rcases hg2.2 z hz with hmem | hlt
        · have hmemC : amem effC.g.edge (.pint z) = true := hmem
          rcases hg1.2 z hmemC with hmem2 | hlt2
          · rcases amem_aset_inv _ _ _ _ hmem2 with hik | hold
            · right
              rw [← hik] at hu
              have hzc : z < (c : Int) := update_uid_counter_int_lt _ _ _ hu
              have hcc : (c : Int) ≤ (eff2.g.edge_uid : Int) := by
                exact_mod_cast hg2c
              omega
            · exact Or.inl hold
          · right
            have hzc : z < (effC.g.edge_uid : Int) := hlt2
            have h1 : (effC.g.edge_uid : Int) ≤ (c : Int) := by
              exact_mod_cast hgec
            have h2 : (c : Int) ≤ (eff2.g.edge_uid : Int) := by
              exact_mod_cast hg2c
            omega
        · exact Or.inr hlt

/-! ## Forward evaluation of scalar member registration -/

theorem aset_self_of_aget {α β : Type} [DecidableEq α] (l : List (α × β))
    (k : α) (v : β) (h : aget l k = some v) : aset l k v = l := by
  induction l with
  | nil => simp [aget] at h
  | cons p ps ih =>
    by_cases hp : p.1 = k
    · simp only [aget, hp, if_pos rfl] at h
      cases h
      simp only [aset, if_pos hp]
      rw [← hp]
    · simp only [aget, hp, if_false] at h
      simp [aset, hp, ih h]

theorem addNodeToEdge_ok_of (eff : Eff) (uid node : PyObj) (b : Bool)
    (er : EdgeRec) (hh : hashable node = true) (hnn : node ≠ .pnone)
    (he : aget eff.g.edge uid = some er) :
    ∃ nr1, aget (ensuredNode eff.g node) node = some nr1 ∧
      addNodeToEdge eff uid node b = .ok { eff with g := { eff.g with
        node := aset (ensuredNode eff.g node) node
          (if b then { nr1 with nOut := insert uid nr1.nOut }
           else { nr1 with nIn := insert uid nr1.nIn }),
        node_attr := ensuredNodeAttr eff.g node,
        edge := aset eff.g.edge uid
          (if b then { er with eIn := insert node er.eIn }
           else { er with eOut := insert node er.eOut }) } } := by
  by_cases hm : amem eff.g.node node = true
  · have hget0 : ∃ nr1, aget eff.g.node node = some nr1 := by
      rw [amem_eq_isSome] at hm
      cases hg : aget eff.g.node node with
      | none => rw [hg] at hm; simp at hm
      | some nr => exact ⟨nr, rfl⟩
    obtain ⟨nr1, hget⟩ := hget0
    refine ⟨nr1, ?_, ?_⟩
    · rw [ensuredNode, if_pos hm]
      exact hget
    · unfold addNodeToEdge
      simp only [hh, hm, hget, he, ensuredNode, ensuredNodeAttr, if_true]
      simp
  · have hmf : amem eff.g.node node = false := by simpa using hm
    refine ⟨⟨∅, ∅⟩, ?_, ?_⟩
    · rw [ensuredNode, if_neg hm]
      exact aget_aset_self _ _ _
    · unfold addNodeToEdge
      simp only [hh, hmf, hnn, he, ensuredNode, ensuredNodeAttr,
        aget_aset_self, if_false]
      simp [hnn, aget_aset_self, he]

theorem addNodeToEdge_nodeMono (eff : Eff) (uid node : PyObj) (b : Bool)
    (eff2 : Eff) (h : addNodeToEdge eff uid node b = .ok eff2)
    (n : PyObj) (nr : NodeRec) (hn : aget eff.g.node n = some nr) :
    ∃ nr2, aget eff2.g.node n = some nr2 ∧
      (∀ b2, nside b2 nr ⊆ nside b2 nr2) := by
  obtain ⟨nr1, er, hget, he, rfl⟩ := addNodeToEdge_cases _ _ _ _ _ h
  by_cases hnn : n = node
  · subst hnn
    have hm : amem eff.g.node n = true := by rw [amem_eq_isSome, hn]; rfl
    rw [ensuredNode, if_pos hm, hn] at hget
    cases hget
    refine ⟨_, aget_aset_self _ _ _, ?_⟩
    intro b2
    cases b <;> cases b2 <;> simp [nside]
  · refine ⟨nr, ?_, fun b2 => Finset.Subset.refl _⟩
    rw [aget_aset_of_ne _ _ _ _ hnn, aget_ensured_of_ne _ _ _ hnn]
    exact hn

theorem processElementF_pstr (recAdd : Eff → PyObj → Except (PyErr × Eff) Eff)
    (uid : PyObj) (b : Bool) (eff : Eff) (s : String) :
    processElementF recAdd uid b eff (.pstr s) =
      addNodeToEdge eff uid (.pstr s) b := rfl

theorem eside_insSide_self (b : Bool) (x : PyObj) (er : EdgeRec) :
    eside b (if b then { er with eIn := insert x er.eIn }
      else { er with eOut := insert x er.eOut }) = insert x (eside b er) := by
  cases b <;> simp [eside]

theorem eside_insSide_other (b : Bool) (x : PyObj) (er : EdgeRec) :
    eside (!b) (if b then { er with eIn := insert x er.eIn }
      else { er with eOut := insert x er.eOut }) = eside (!b) er := by
  cases b <;> simp [eside]

theorem nside_ins_mem (b : Bool) (uid : PyObj) (nr : NodeRec) :
    uid ∈ nside b (if b then { nr with nOut := insert uid nr.nOut }
      else { nr with nIn := insert uid nr.nIn }) := by
  cases b <;> simp [nside]

theorem foldE_scalars (recAdd : Eff → PyObj → Except (PyErr × Eff) Eff)
    (uid : PyObj) (b : Bool) :
    ∀ (toks : List String) (eff : Eff) (er : EdgeRec),
      aget eff.g.edge uid = some er →
      ∃ eff2 er2,
        foldE (processElementF recAdd uid b) eff (toks.map .pstr) = .ok eff2 ∧
        eff2.g.edge = aset eff.g.edge uid er2 ∧
        eside b er2 = eside b er ∪ (toks.map PyObj.pstr).toFinset ∧
        eside (!b) er2 = eside (!b) er ∧
        eff2.g.edge_uid = eff.g.edge_uid ∧
        eff2.warns = eff.warns ∧
        (∀ s ∈ toks, ∃ nr, aget eff2.g.node (.pstr s) = some nr ∧
          uid ∈ nside b nr) ∧
        (∀ n, (∀ s ∈ toks, n ≠ .pstr s) →
          aget eff2.g.node n = aget eff.g.node n) ∧
        (∀ n nr, aget eff.g.node n = some nr →
          ∃ nr2, aget eff2.g.node n = some nr2 ∧
            ∀ b2, nside b2 nr ⊆ nside b2 nr2) := by
  intro toks
  induction toks with
  | nil =>
    intro eff er he
    refine ⟨eff, er, by simp [foldE], ?_, by simp, rfl, rfl, rfl, ?_, ?_, ?_⟩
    · rw [aset_self_of_aget _ _ _ he]
    · intro s hs
      simp at hs
    · intro n hn
      rfl
    · intro n nr hn
      exact ⟨nr, hn, fun b2 => Finset.Subset.refl _⟩
  | cons t rest ih =>
    intro eff er he
    obtain ⟨nr1, hget1, hstep⟩ :=
      addNodeToEdge_ok_of eff uid (.pstr t) b er rfl (by intro hc; cases hc) he
    have hS : aget (aset eff.g.edge uid
        (if b then { er with eIn := insert (.pstr t) er.eIn }
         else { er with eOut := insert (.pstr t) er.eOut })) uid =
        some (if b then { er with eIn := insert (.pstr t) er.eIn }
         else { er with eOut := insert (.pstr t) er.eOut }) :=
      aget_aset_self _ _ _
    obtain ⟨eff2, er2, hfold, hedge, hside, hside2, hcnt, hwarn, hmem, hunch,
        hmono⟩ :=
      ih { eff with g := { eff.g with
        node := aset (ensuredNode eff.g (.pstr t)) (.pstr t)
          (if b then { nr1 with nOut := insert uid nr1.nOut }
           else { nr1 with nIn := insert uid nr1.nIn }),
        node_attr := ensuredNodeAttr eff.g (.pstr t),
        edge := aset eff.g.edge uid
          (if b then { er with eIn := insert (.pstr t) er.eIn }
           else { er with eOut := insert (.pstr t) er.eOut }) } }
        (if b then { er with eIn := insert (.pstr t) er.eIn }
         else { er with eOut := insert (.pstr t) er.eOut }) hS
    refine ⟨eff2, er2, ?_, ?_, ?_, ?_, ?_, ?_, ?_, ?_, ?_⟩
    · simp only [List.map, foldE, processElementF_pstr, hstep]
      exact hfold
    · rw [hedge]
      exact aset_aset _ _ _ _
    · rw [hside, eside_insSide_self]
      simp only [List.map, List.toFinset_cons]
      rw [Finset.insert_union, Finset.union_insert]
    · rw [hside2, eside_insSide_other]
    · exact hcnt
    · exact hwarn
    · intro s hs
      rcases List.mem_cons.mp hs with hst | hsr
      · subst hst
        by_cases htr : s ∈ rest
        · exact hmem s htr
        · have hne : ∀ s2 ∈ rest, PyObj.pstr s ≠ PyObj.pstr s2 := by
            intro s2 hs2 hcontra
            injection hcontra with hc2
            exact htr (hc2 ▸ hs2)
          rw [hunch _ hne]
          refine ⟨_, aget_aset_self _ _ _, nside_ins_mem b uid nr1⟩
      · exact hmem s hsr
    · intro n hn
      have hne : ∀ s ∈ rest, n ≠ PyObj.pstr s := by
        intro s hs
        exact hn s (List.mem_cons_of_mem _ hs)
      rw [hunch n hne]
      have hnt : n ≠ PyObj.pstr t := hn t (List.mem_cons_self _ _)
      show aget (aset (ensuredNode eff.g (.pstr t)) (.pstr t) _) n =
        aget eff.g.node n
      rw [aget_aset_of_ne _ _ _ _ hnt, aget_ensured_of_ne _ _ _ hnt]
    · intro n nr hn
      obtain ⟨nrS, hgetS, hsubS⟩ :=
        addNodeToEdge_nodeMono _ _ _ _ _ hstep n nr hn
      obtain ⟨nr2, hget2, hsub2⟩ := hmono n nrS hgetS
      exact ⟨nr2, hget2, fun b2 =>
        Finset.Subset.trans (hsubS b2) (hsub2 b2)⟩

theorem add_edge_scalars (fuel : Nat) (eff : Eff) (ts hs : List String)
    (hfresh : amem eff.g.edge (.pint (eff.g.edge_uid : Int)) = false) :
    ∃ eff2,
      add_edge (fuel + 1) eff
        (.ptup [.plist (ts.map .pstr), .plist (hs.map .pstr)]) none [] =
        .ok eff2 ∧
      aget eff2.g.edge (.pint (eff.g.edge_uid : Int)) =
        some ⟨(ts.map PyObj.pstr).toFinset, (hs.map PyObj.pstr).toFinset⟩ ∧
      (∀ e, e ≠ .pint (eff.g.edge_uid : Int) →
        aget eff2.g.edge e = aget eff.g.edge e) ∧
      eff2.g.edge.length = eff.g.edge.length + 1 ∧
      eff2.g.edge_uid = eff.g.edge_uid + 1 ∧
      eff2.warns = eff.warns ∧
      (∀ s ∈ ts, ∃ nr, aget eff2.g.node (.pstr s) = some nr ∧
        .pint (eff.g.edge_uid : Int) ∈ nr.nOut) ∧
      (∀ s ∈ hs, ∃ nr, aget eff2.g.node (.pstr s) = some nr ∧
        .pint (eff.g.edge_uid : Int) ∈ nr.nIn) ∧
      (∀ n, (∀ s ∈ ts, n ≠ .pstr s) → (∀ s ∈ hs, n ≠ .pstr s) →
        aget eff2.g.node n = aget eff.g.node n) := by
  have heA : aget (aset eff.g.edge (.pint (eff.g.edge_uid : Int))
      (⟨∅, ∅⟩ : EdgeRec)) (.pint (eff.g.edge_uid : Int)) = some ⟨∅, ∅⟩ :=
    aget_aset_self _ _ _
  obtain ⟨effB, erB, hfoldT, hedgeB, hsideB, hsideB2, hcntB, hwarnB, hmemB,
      hunchB, hmonoB⟩ :=
    foldE_scalars (fun e m => add_edge fuel e m none [])
      (.pint (eff.g.edge_uid : Int)) true ts
      ⟨⟨eff.g.edge_uid + 1, eff.g.node, eff.g.node_attr,
        aset eff.g.edge (.pint (eff.g.edge_uid : Int)) ⟨∅, ∅⟩,
        eff.g.edge_attr⟩, eff.warns⟩
      ⟨∅, ∅⟩ heA
  have heB : aget effB.g.edge (.pint (eff.g.edge_uid : Int)) = some erB := by
    rw [hedgeB]
    exact aget_aset_self _ _ _
  obtain ⟨effC, erC, hfoldH, hedgeC, hsideC, hsideC2, hcntC, hwarnC, hmemC,
      hunchC, hmonoC⟩ :=
    foldE_scalars (fun e m => add_edge fuel e m none [])
      (.pint (eff.g.edge_uid : Int)) false hs effB erB heB
  have hinB : erB.eIn = (ts.map PyObj.pstr).toFinset := by
    have h2 := hsideB
    simp [eside] at h2
    exact h2
  have houtB : erB.eOut = ∅ := by
    have h2 := hsideB2
    simp [eside] at h2
    exact h2
  have hinC : erC.eIn = (ts.map PyObj.pstr).toFinset := by
    have h2 := hsideC2
    simp [eside] at h2
    rw [h2, hinB]
  have houtC : erC.eOut = (hs.map PyObj.pstr).toFinset := by
    have h2 := hsideC
    simp [eside] at h2
    rw [h2, houtB]
    simp
  have herC : erC = ⟨(ts.map PyObj.pstr).toFinset, (hs.map PyObj.pstr).toFinset⟩ := by
    cases erC
    simp only at hinC houtC
    rw [hinC, houtC]
  have hmemBedge : amem effB.g.edge (.pint (eff.g.edge_uid : Int)) = true := by
    rw [amem_eq_isSome, heB]
    rfl
  have hmemAedge : amem (aset eff.g.edge (.pint (eff.g.edge_uid : Int))
      (⟨∅, ∅⟩ : EdgeRec)) (.pint (eff.g.edge_uid : Int)) = true :=
    amem_aset_self _ _ _
  refine ⟨⟨⟨effC.g.edge_uid, effC.g.node, effC.g.node_attr, effC.g.edge,
      aset effC.g.edge_attr (.pint (eff.g.edge_uid : Int)) (updAttr [] [])⟩,
      effC.warns⟩,
    ?_, ?_, ?_, ?_, ?_, ?_, ?_, ?_, ?_⟩
  · simp only [add_edge, spec2, hashable, hfresh, Bool.false_eq_true,
      Bool.true_eq_false, if_false, reduceIte, processSideF]
    rw [hfoldT]
    simp only [Except.bind]
    rw [hfoldH]
    simp only [Except.bind]
    rw [if_neg (fun hcontra => PyObj.noConfusion hcontra)]
  · show aget effC.g.edge _ = _
    rw [hedgeC, aget_aset_self, herC]
  · intro e hne
    show aget effC.g.edge e = aget eff.g.edge e
    rw [hedgeC, aget_aset_of_ne _ _ _ _ hne, hedgeB,
      aget_aset_of_ne _ _ _ _ hne]
    show aget (aset eff.g.edge (.pint (eff.g.edge_uid : Int)) ⟨∅, ∅⟩) e =
      aget eff.g.edge e
    rw [aget_aset_of_ne _ _ _ _ hne]
  · show effC.g.edge.length = eff.g.edge.length + 1
    rw [hedgeC, length_aset_of_amem _ _ _ hmemBedge, hedgeB,
      length_aset_of_amem _ _ _ hmemAedge]
    show (aset eff.g.edge (.pint (eff.g.edge_uid : Int)) ⟨∅, ∅⟩).length =
      eff.g.edge.length + 1
    rw [length_aset_of_not_amem _ _ _ hfresh]
  · show effC.g.edge_uid = eff.g.edge_uid + 1
    rw [hcntC, hcntB]
  · show effC.warns = eff.warns
    rw [hwarnC, hwarnB]
  · intro s hsmem
    obtain ⟨nr, hget, hside⟩ := hmemB s hsmem
    obtain ⟨nr2, hget2, hsub⟩ := hmonoC (.pstr s) nr hget
    refine ⟨nr2, hget2, ?_⟩
    have := hsub true hside
    simpa [nside] using this
  · intro s hsmem
    obtain ⟨nr, hget, hside⟩ := hmemC s hsmem
    refine ⟨nr, hget, ?_⟩
    simpa [nside] using hside
  · intro n hts hhs
    show aget effC.g.node n = aget eff.g.node n
    rw [hunchC n hhs, hunchB n hts]

/-- One-step unfolding of the successor case of the fuel recursion. -/
theorem add_edge_succ (fuel : Nat) (eff : Eff) (members : PyObj)
    (idx : Option PyObj) (attr : Attr) :
    add_edge (fuel + 1) eff members idx attr =
    (match spec2 members with
    | none =>
      .error (.typeError "Directed edge must be a list or tuple of length 2!", eff)
    | some (tail, head) =>
      let p : PyObj × Eff :=
        match idx with
        | none => (.pint (eff.g.edge_uid : Int),
            { eff with g := { eff.g with edge_uid := eff.g.edge_uid + 1 } })
        | some i => (i, eff)
      let uid := p.1
      let eff0 := p.2
      if hashable uid = false then .error (.typeError "unhashable type", eff0)
      else if amem eff0.g.edge uid then .ok { eff0 with warns := eff0.warns + 1 }
      else if uid = .pnone then
        .error (.xgiError "None cannot be a node or edge", eff0)
      else
        Except.bind (processSideF (fun e m => add_edge fuel e m none [])
            uid true { eff0 with g := { eff0.g with
              edge := aset eff0.g.edge uid ⟨∅, ∅⟩ } } tail)
          (fun effB =>
            Except.bind (processSideF (fun e m => add_edge fuel e m none [])
                uid false effB head)
              (fun effC =>
                let effD := { effC with g := { effC.g with
                  edge_attr := aset effC.g.edge_attr uid (updAttr [] attr) } }
                match idx with
                | none => .ok effD
                | some i =>
                  Except.bind (rebaseE i effD)
                    (fun effE =>
                      trailingF (fun e m => add_edge fuel e m none [])
                        effE members i attr)))) := rfl

theorem add_edge_nested_run (fuel : Nat) (eff : Eff)
    (h1 : amem eff.g.edge (.pint (eff.g.edge_uid : Int)) = false)
    (h2 : amem eff.g.edge (.pint ((eff.g.edge_uid : Int) + 1)) = false) :
    ∃ eff2,
      add_edge (fuel + 2) eff
        (.ptup [.ptup [.ptup [.plist [.pstr "x", .pstr "y"],
          .plist [.pstr "z"]]], .plist [.pstr "w"]]) none [] = .ok eff2 ∧
      aget eff2.g.edge (.pint ((eff.g.edge_uid : Int) + 1)) =
        some ⟨{.pstr "x", .pstr "y"}, {.pstr "z"}⟩ ∧
      aget eff2.g.edge (.pint (eff.g.edge_uid : Int)) =
        some ⟨∅, {.pstr "w"}⟩ ∧
      eff2.g.edge.length = eff.g.edge.length + 2 := by
  have hne10 : PyObj.pint ((eff.g.edge_uid : Int) + 1) ≠
      PyObj.pint (eff.g.edge_uid : Int) := by
    intro hcontra
    injection hcontra with hcc
    omega
  have hne01 : PyObj.pint (eff.g.edge_uid : Int) ≠
      PyObj.pint ((eff.g.edge_uid : Int) + 1) := fun hcc => hne10 hcc.symm
  have hfreshA : amem (aset eff.g.edge (.pint (eff.g.edge_uid : Int))
      (⟨∅, ∅⟩ : EdgeRec)) (.pint ((eff.g.edge_uid : Int) + 1)) = false := by
    rw [amem_aset_of_ne _ _ _ _ hne10]
    exact h2
  obtain ⟨effI, hIeq, hIget, hIother, hIlen, hIcnt, hIwarn, hIts, hIhs,
      hIunch⟩ :=
    add_edge_scalars fuel
      ⟨⟨eff.g.edge_uid + 1, eff.g.node, eff.g.node_attr,
        aset eff.g.edge (.pint (eff.g.edge_uid : Int)) ⟨∅, ∅⟩,
        eff.g.edge_attr⟩, eff.warns⟩
      ["x", "y"] ["z"] hfreshA
  simp only [List.map_cons, List.map_nil] at hIeq
  have hIeq2 : add_edge (fuel + 1)
      ⟨⟨eff.g.edge_uid + 1, eff.g.node, eff.g.node_attr,
        aset eff.g.edge (.pint (eff.g.edge_uid : Int)) ⟨∅, ∅⟩,
        eff.g.edge_attr⟩, eff.warns⟩
      (.ptup [.plist [.pstr "x", .pstr "y"], .plist [.pstr "z"]]) none [] =
      .ok effI := hIeq
  have hIget2 : aget effI.g.edge (.pint ((eff.g.edge_uid : Int) + 1)) =
      some ⟨{.pstr "x", .pstr "y"}, {.pstr "z"}⟩ := by
    have hcast : aget effI.g.edge (.pint ((eff.g.edge_uid : Int) + 1)) =
        some ⟨(["x", "y"].map PyObj.pstr).toFinset,
          (["z"].map PyObj.pstr).toFinset⟩ := hIget
    simpa using hcast
  have hIother2 : ∀ e, e ≠ PyObj.pint ((eff.g.edge_uid : Int) + 1) →
      aget effI.g.edge e =
        aget (aset eff.g.edge (.pint (eff.g.edge_uid : Int)) ⟨∅, ∅⟩) e :=
    fun e he => hIother e he
  have heIc : aget effI.g.edge (.pint (eff.g.edge_uid : Int)) =
      some ⟨∅, ∅⟩ := by
    rw [hIother2 _ hne01]
    exact aget_aset_self _ _ _
  obtain ⟨effF, erF, hFfold, hFedge, hFside, hFside2, hFcnt, hFwarn, hFmem,
      hFunch, hFmono⟩ :=
    foldE_scalars (fun e m => add_edge (fuel + 1) e m none [])
      (.pint (eff.g.edge_uid : Int)) false ["w"] effI ⟨∅, ∅⟩ heIc
  simp only [List.map_cons, List.map_nil] at hFfold
  have herF : erF = ⟨∅, {.pstr "w"}⟩ := by
    have hIn : erF.eIn = ∅ := by
      have hh := hFside2
      simp [eside] at hh
      exact hh
    have hOut : erF.eOut = {.pstr "w"} := by
      have hh := hFside
      simp [eside] at hh
      exact hh
    cases erF
    simp only at hIn hOut
    rw [hIn, hOut]
  have htailfold : foldE (processElementF
      (fun e m => add_edge (fuel + 1) e m none [])
      (.pint (eff.g.edge_uid : Int)) true)
      ⟨⟨eff.g.edge_uid + 1, eff.g.node, eff.g.node_attr,
        aset eff.g.edge (.pint (eff.g.edge_uid : Int)) ⟨∅, ∅⟩,
        eff.g.edge_attr⟩, eff.warns⟩
      [.ptup [.plist [.pstr "x", .pstr "y"], .plist [.pstr "z"]]] =
      .ok effI := by
    show (match processElementF (fun e m => add_edge (fuel + 1) e m none [])
        (.pint (eff.g.edge_uid : Int)) true
        ⟨⟨eff.g.edge_uid + 1, eff.g.node, eff.g.node_attr,
          aset eff.g.edge (.pint (eff.g.edge_uid : Int)) ⟨∅, ∅⟩,
          eff.g.edge_attr⟩, eff.warns⟩
        (.ptup [.plist [.pstr "x", .pstr "y"], .plist [.pstr "z"]]) with
      | .error e => Except.error e
      | .ok e2 => foldE (processElementF
          (fun e m => add_edge (fuel + 1) e m none [])
          (.pint (eff.g.edge_uid : Int)) true) e2 []) = .ok effI
    have hred : processElementF (fun e m => add_edge (fuel + 1) e m none [])
        (.pint (eff.g.edge_uid : Int)) true
        ⟨⟨eff.g.edge_uid + 1, eff.g.node, eff.g.node_attr,
          aset eff.g.edge (.pint (eff.g.edge_uid : Int)) ⟨∅, ∅⟩,
          eff.g.edge_attr⟩, eff.warns⟩
        (.ptup [.plist [.pstr "x", .pstr "y"], .plist [.pstr "z"]]) =
        .ok effI := hIeq2
    rw [hred]
    rfl
  refine ⟨⟨⟨effF.g.edge_uid, effF.g.node, effF.g.node_attr, effF.g.edge,
      aset effF.g.edge_attr (.pint (eff.g.edge_uid : Int)) (updAttr [] [])⟩,
      effF.warns⟩, ?_, ?_, ?_, ?_⟩
  · have hstep2 : fuel + 2 = (fuel + 1) + 1 := rfl
    rw [hstep2, add_edge_succ]
    simp only [spec2, hashable, h1, Bool.false_eq_true,
      Bool.true_eq_false, if_false, reduceIte, processSideF]
    rw [htailfold]
    simp only [Except.bind]
    rw [hFfold]
    simp only [Except.bind]
    rw [if_neg (fun hcontra => PyObj.noConfusion hcontra)]
  · show aget effF.g.edge _ = _
    rw [hFedge, aget_aset_of_ne _ _ _ _ hne10]
    exact hIget2
  · show aget effF.g.edge _ = _
    rw [hFedge, aget_aset_self, herF]
  · show effF.g.edge.length = _
    have hmemI : amem effI.g.edge (.pint (eff.g.edge_uid : Int)) = true := by
      rw [amem_eq_isSome, heIc]
      rfl
    rw [hFedge, length_aset_of_amem _ _ _ hmemI, hIlen]
    show (aset eff.g.edge (.pint (eff.g.edge_uid : Int)) ⟨∅, ∅⟩).length + 1 =
      eff.g.edge.length + 2
    rw [length_aset_of_not_amem _ _ _ h1]

/-! ## The trailing duplicated block is warn-and-return on a present id -/

theorem trailingF_dup_warn (recAdd : Eff → PyObj → Except (PyErr × Eff) Eff)
    (eff : Eff) (members : PyObj) (i : PyObj) (attr : Attr)
    (tail head : PyObj) (hsp : spec2 members = some (tail, head))
    (hh : hashable i = true) (hmem : amem eff.g.edge i = true) :
    trailingF recAdd eff members i attr =
      .ok { eff with warns := eff.warns + 1 } := by
  unfold trailingF
  rw [hsp]
  simp only [hh, hmem, Bool.true_eq_false, if_false, reduceIte]

theorem add_edge_some_commit (fuel : Nat) (eff : Eff) (m : PyObj)
    (i : PyObj) (attr : Attr) (eff2 : Eff)
    (hfresh : amem eff.g.edge i = false)
    (h : add_edge (fuel + 1) eff m (some i) attr = .ok eff2) :
    ∃ effPre tail head, spec2 m = some (tail, head) ∧
      amem effPre.g.edge i = true ∧
      trailingF (fun e m2 => add_edge fuel e m2 none []) effPre m i attr =
        .ok eff2 ∧
      eff2 = { effPre with warns := effPre.warns + 1 } := by
  simp only [add_edge] at h
  split at h
  · cases h
  rename_i th tail head hsp
  split at h
  · cases h
  rename_i hhash
  split at h
  · rename_i hdup
    rw [hfresh] at hdup
    cases hdup
  rename_i hdup
  split at h
  · cases h
  rename_i hnn
  obtain ⟨effB, hps, h⟩ := bindE_ok _ _ _ h
  obtain ⟨effC, hps2, h⟩ := bindE_ok _ _ _ h
  obtain ⟨effE, hre, h⟩ := bindE_ok _ _ _ h
  obtain ⟨c, hu, hge, rfl⟩ := rebaseE_ok _ _ _ hre
  have hmemA : amem (aset eff.g.edge i (⟨∅, ∅⟩ : EdgeRec)) i = true :=
    amem_aset_self _ _ _
  have hkrec : ∀ e mm e2, amem e.g.edge i = true →
      (fun e mm => add_edge fuel e mm none []) e mm = .ok e2 →
      amem e2.g.edge i = true :=
    fun e mm e2 hk hh2 => add_edge_keyMono fuel e mm none [] e2 hh2 i hk
  have hmemB : amem effB.g.edge i = true :=
    processSideF_closed (stepClosed_keyMono i) hkrec _ _ _ _ _ hmemA hps
  have hmemC : amem effC.g.edge i = true :=
    processSideF_closed (stepClosed_keyMono i) hkrec _ _ _ _ _ hmemB hps2
  have hhash2 : hashable i = true := by
    rcases hb : hashable i with _ | _
    · exact absurd hb hhash
    · rfl
  have hmemE : amem ({ effC with g := { effC.g with
      edge_attr := aset effC.g.edge_attr i (updAttr [] attr),
      edge_uid := c } } : Eff).g.edge i = true := hmemC
  rw [trailingF_dup_warn _ _ _ _ _ tail head hsp hhash2 hmemE] at h
  cases h
  refine ⟨_, tail, head, hsp, hmemE, ?_, rfl⟩
  rw [trailingF_dup_warn _ _ _ _ _ tail head hsp hhash2 hmemE]

/-! ## Committing with an automatic id -/

theorem add_edge_none_commit (fuel : Nat) (eff : Eff) (m : PyObj)
    (attr : Attr) (eff2 : Eff)
    (hfresh : amem eff.g.edge (.pint (eff.g.edge_uid : Int)) = false)
    (h : add_edge (fuel + 1) eff m none attr = .ok eff2) :
    amem eff2.g.edge (.pint (eff.g.edge_uid : Int)) = true ∧
    eff.g.edge_uid + 1 ≤ eff2.g.edge_uid := by
  simp only [add_edge] at h
  split at h
  · cases h
  rename_i th tail head hsp
  split at h
  · cases h
  rename_i hhash
  split at h
  · rename_i hdup
    rw [hfresh] at hdup
    cases hdup
  rename_i hdup
  split at h
  · cases h
  rename_i hnn
  obtain ⟨effB, hps, h⟩ := bindE_ok _ _ _ h
  obtain ⟨effC, hps2, h⟩ := bindE_ok _ _ _ h
  cases h
  have hmemA : amem (aset eff.g.edge (.pint (eff.g.edge_uid : Int))
      (⟨∅, ∅⟩ : EdgeRec)) (.pint (eff.g.edge_uid : Int)) = true :=
    amem_aset_self _ _ _
  have hkrec : ∀ e mm e2,
      amem e.g.edge (.pint (eff.g.edge_uid : Int)) = true →
      (fun e mm => add_edge fuel e mm none []) e mm = .ok e2 →
      amem e2.g.edge (.pint (eff.g.edge_uid : Int)) = true :=
    fun e mm e2 hk hh2 =>
      add_edge_keyMono fuel e mm none [] e2 hh2 _ hk
  have hmemB : amem effB.g.edge (.pint (eff.g.edge_uid : Int)) = true :=
    processSideF_closed (stepClosed_keyMono _) hkrec _ _ _ _ _ hmemA hps
  have hmemC : amem effC.g.edge (.pint (eff.g.edge_uid : Int)) = true :=
    processSideF_closed (stepClosed_keyMono _) hkrec _ _ _ _ _ hmemB hps2
  have hcrec : ∀ e mm e2, eff.g.edge_uid + 1 ≤ e.g.edge_uid →
      (fun e mm => add_edge fuel e mm none []) e mm = .ok e2 →
      eff.g.edge_uid + 1 ≤ e2.g.edge_uid :=
    fun e mm e2 hk hh2 =>
      le_trans hk (add_edge_counterMono fuel e mm none [] e2 hh2)
  have hcB : eff.g.edge_uid + 1 ≤ effB.g.edge_uid :=
    processSideF_closed (stepClosed_counterGe _) hcrec _ _ _ _ _
      (le_refl _) hps
  have hcC : eff.g.edge_uid + 1 ≤ effC.g.edge_uid :=
    processSideF_closed (stepClosed_counterGe _) hcrec _ _ _ _ _ hcB hps2
  exact ⟨hmemC, hcC⟩

/-! ## Counter dominance over integer-valued edge ids -/

/-- The allocator's next value is strictly greater than every integer-valued
edge id in the table. -/
def counterDominates (g : DiUberGraphs) : Prop :=
  ∀ z : Int, amem g.edge (.pint z) = true → z < (g.edge_uid : Int)

theorem add_edge_counterDominates (fuel : Nat) (eff : Eff) (m : PyObj)
    (idx : Option PyObj) (attr : Attr) (eff2 : Eff)
    (hd : counterDominates eff.g)
    (h : add_edge fuel eff m idx attr = .ok eff2) :
    counterDominates eff2.g := by
  intro z hz
  have hgb := add_edge_growsBounded fuel eff m idx attr eff2 h
  rcases hgb.2 z hz with hmem | hlt
  · have hlt1 := hd z hmem
    have hle : (eff.g.edge_uid : Int) ≤ (eff2.g.edge_uid : Int) := by
      exact_mod_cast hgb.1
    omega
  · exact hlt

/-! ## Concrete fixtures: literal states produced by concrete `add_edge` runs -/

/-- A fresh `DiUberGraphs()` object: empty tables, counter at 0, no warnings. -/
def effEmpty : Eff := ⟨⟨0, [], [], [], []⟩, 0⟩

/-- The edge specification `(["a"], ["b"])`. -/
def specAB : PyObj := .ptup [.plist [.pstr "a"], .plist [.pstr "b"]]

/-- The edge specification `(["c"], ["d"])`. -/
def specCD : PyObj := .ptup [.plist [.pstr "c"], .plist [.pstr "d"]]

/-- The edge specification `(["a", "b"], ["c"])`. -/
def specABC : PyObj := .ptup [.plist [.pstr "a", .pstr "b"], .plist [.pstr "c"]]

/-- State after `add_edge((["a"],["b"]))` on the fresh graph: edge id 0. -/
def effA1 : Eff :=
  ⟨⟨1, [(.pstr "a", ⟨∅, {.pint 0}⟩), (.pstr "b", ⟨{.pint 0}, ∅⟩)],
    [(.pstr "a", []), (.pstr "b", [])],
    [(.pint 0, ⟨{.pstr "a"}, {.pstr "b"}⟩)], [(.pint 0, [])]⟩, 0⟩

/-- State after a second `add_edge((["a"],["b"]))`: edge id 1. -/
def effA2 : Eff :=
  ⟨⟨2, [(.pstr "a", ⟨∅, {.pint 1, .pint 0}⟩), (.pstr "b", ⟨{.pint 1, .pint 0}, ∅⟩)],
    [(.pstr "a", []), (.pstr "b", [])],
    [(.pint 0, ⟨{.pstr "a"}, {.pstr "b"}⟩), (.pint 1, ⟨{.pstr "a"}, {.pstr "b"}⟩)],
    [(.pint 0, []), (.pint 1, [])]⟩, 0⟩

/-- State after a third `add_edge((["a"],["b"]))`: edge id 2. -/
def effA3 : Eff :=
  ⟨⟨3, [(.pstr "a", ⟨∅, {.pint 2, .pint 1, .pint 0}⟩),
    (.pstr "b", ⟨{.pint 2, .pint 1, .pint 0}, ∅⟩)],
    [(.pstr "a", []), (.pstr "b", [])],
    [(.pint 0, ⟨{.pstr "a"}, {.pstr "b"}⟩), (.pint 1, ⟨{.pstr "a"}, {.pstr "b"}⟩),
      (.pint 2, ⟨{.pstr "a"}, {.pstr "b"}⟩)],
    [(.pint 0, []), (.pint 1, []), (.pint 2, [])]⟩, 0⟩

/-- State after `add_edge((["a"],["b"]), idx=7)` on the fresh graph: the rebase
sets the counter to 8 and the trailing block warns once. -/
def eff7 : Eff :=
  ⟨⟨8, [(.pstr "a", ⟨∅, {.pint 7}⟩), (.pstr "b", ⟨{.pint 7}, ∅⟩)],
    [(.pstr "a", []), (.pstr "b", [])],
    [(.pint 7, ⟨{.pstr "a"}, {.pstr "b"}⟩)], [(.pint 7, [])]⟩, 1⟩

/-- State after a further `add_edge((["a"],["b"]))` on `eff7`: edge id 8. -/
def eff78 : Eff :=
  ⟨⟨9, [(.pstr "a", ⟨∅, {.pint 8, .pint 7}⟩), (.pstr "b", ⟨{.pint 8, .pint 7}, ∅⟩)],
    [(.pstr "a", []), (.pstr "b", [])],
    [(.pint 7, ⟨{.pstr "a"}, {.pstr "b"}⟩), (.pint 8, ⟨{.pstr "a"}, {.pstr "b"}⟩)],
    [(.pint 7, []), (.pint 8, [])]⟩, 1⟩

/-- An empty graph whose allocator already stands at 9. -/
def eff9start : Eff := ⟨⟨9, [], [], [], []⟩, 0⟩

/-- State after `add_edge((["a"],["b"]), idx=7)` on `eff9start`: the rebase
guard `uid <= idx` fails (9 > 7), so the counter stays at 9. -/
def eff97 : Eff :=
  ⟨⟨9, [(.pstr "a", ⟨∅, {.pint 7}⟩), (.pstr "b", ⟨{.pint 7}, ∅⟩)],
    [(.pstr "a", []), (.pstr "b", [])],
    [(.pint 7, ⟨{.pstr "a"}, {.pstr "b"}⟩)], [(.pint 7, [])]⟩, 1⟩

/-- State after a further `add_edge((["a"],["b"]))` on `eff97`: edge id 9. -/
def eff979 : Eff :=
  ⟨⟨10, [(.pstr "a", ⟨∅, {.pint 9, .pint 7}⟩), (.pstr "b", ⟨{.pint 9, .pint 7}, ∅⟩)],
    [(.pstr "a", []), (.pstr "b", [])],
    [(.pint 7, ⟨{.pstr "a"}, {.pstr "b"}⟩), (.pint 9, ⟨{.pstr "a"}, {.pstr "b"}⟩)],
    [(.pint 7, []), (.pint 9, [])]⟩, 1⟩

/-- State after `add_edge((["a"],["b"]), idx=3)` on the fresh graph. -/
def eff3c : Eff :=
  ⟨⟨4, [(.pstr "a", ⟨∅, {.pint 3}⟩), (.pstr "b", ⟨{.pint 3}, ∅⟩)],
    [(.pstr "a", []), (.pstr "b", [])],
    [(.pint 3, ⟨{.pstr "a"}, {.pstr "b"}⟩)], [(.pint 3, [])]⟩, 1⟩

/-- State after `add_edge((["a"],["b"]), idx=5)` on the fresh graph. -/
def eff5c : Eff :=
  ⟨⟨6, [(.pstr "a", ⟨∅, {.pint 5}⟩), (.pstr "b", ⟨{.pint 5}, ∅⟩)],
    [(.pstr "a", []), (.pstr "b", [])],
    [(.pint 5, ⟨{.pstr "a"}, {.pstr "b"}⟩)], [(.pint 5, [])]⟩, 1⟩

/-- State after `add_edge((["a","b"],["c"]))` on the fresh graph. -/
def effABC : Eff :=
  ⟨⟨1, [(.pstr "a", ⟨∅, {.pint 0}⟩), (.pstr "b", ⟨∅, {.pint 0}⟩),
    (.pstr "c", ⟨{.pint 0}, ∅⟩)],
    [(.pstr "a", []), (.pstr "b", []), (.pstr "c", [])],
    [(.pint 0, ⟨{.pstr "b", .pstr "a"}, {.pstr "c"}⟩)], [(.pint 0, [])]⟩, 0⟩

/-- The empty graph is bipartite-consistent: both tables are empty. -/
theorem bip_empty : bip effEmpty.g := by
  intro b n e
  constructor
  · rintro ⟨nr, hnr, _⟩
    exact Option.noConfusion hnr
  · rintro ⟨er, her, _⟩
    exact Option.noConfusion her

/-! ## The claims -/

/-- C1: for every graph state whose next two allocator values are unused edge
ids, `add_edge(((["x","y"],["z"]),), ["w"])` — a tail containing exactly one
edge-like element and a head `["w"]` — creates exactly two edges: an
independently addressed inner edge with tail member set `{x, y}` and head
member set `{z}`, and the outer edge with empty tail member set and head
member set `{w}`. -/
theorem C1_nested_edge_like_two_edges (fuel : Nat) (eff : Eff)
    (h1 : amem eff.g.edge (.pint (eff.g.edge_uid : Int)) = false)
    (h2 : amem eff.g.edge (.pint ((eff.g.edge_uid : Int) + 1)) = false) :
    ∃ eff2,
      add_edge (fuel + 2) eff
        (.ptup [.ptup [.ptup [.plist [.pstr "x", .pstr "y"],
          .plist [.pstr "z"]]], .plist [.pstr "w"]]) none [] = .ok eff2 ∧
      aget eff2.g.edge (.pint ((eff.g.edge_uid : Int) + 1)) =
        some ⟨{.pstr "x", .pstr "y"}, {.pstr "z"}⟩ ∧
      aget eff2.g.edge (.pint (eff.g.edge_uid : Int)) =
        some ⟨∅, {.pstr "w"}⟩ ∧
      eff2.g.edge.length = eff.g.edge.length + 2 :=
  add_edge_nested_run fuel eff h1 h2

/-- Witness for C1: the run on the fresh empty graph, where the inner edge
gets id 1 and the outer edge id 0. -/
theorem C1_witness :
    ∃ eff2,
      add_edge 2 effEmpty
        (.ptup [.ptup [.ptup [.plist [.pstr "x", .pstr "y"],
          .plist [.pstr "z"]]], .plist [.pstr "w"]]) none [] = .ok eff2 ∧
      aget eff2.g.edge (.pint ((effEmpty.g.edge_uid : Int) + 1)) =
        some ⟨{.pstr "x", .pstr "y"}, {.pstr "z"}⟩ ∧
      aget eff2.g.edge (.pint (effEmpty.g.edge_uid : Int)) =
        some ⟨∅, {.pstr "w"}⟩ ∧
      eff2.g.edge.length = effEmpty.g.edge.length + 2 :=
  C1_nested_edge_like_two_edges 0 effEmpty rfl rfl

/-- C2: bipartite consistency is preserved by every completed `add_node` and
`add_edge` call, and in particular, in the claim's phrasing, for every node
`n` and edge `e` of the resulting tables, `e ∈ n.out ↔ n ∈ e.tail_members`
and `e ∈ n.in ↔ n ∈ e.head_members`. -/
theorem C2_bipartite_invariant :
    (∀ g node attr g2, bip g → add_node g node attr = .ok g2 →
      bip g2 ∧ bipClaim g2) ∧
    (∀ fuel eff m idx attr eff2, bip eff.g →
      add_edge fuel eff m idx attr = .ok eff2 →
      bip eff2.g ∧ bipClaim eff2.g) :=
  ⟨fun g node attr g2 hb h =>
     have h2 := add_node_bip g node attr g2 hb h
     ⟨h2, bip_claimForm _ h2⟩,
   fun fuel eff m idx attr eff2 hb h =>
     have h2 := add_edge_bip fuel eff m idx attr eff2 hb h
     ⟨h2, bip_claimForm _ h2⟩⟩

/-- Witness for C2: one completed `add_edge` call on the (bipartite-consistent)
empty graph preserves the invariant. -/
theorem C2_witness : bip effA1.g ∧ bipClaim effA1.g :=
  C2_bipartite_invariant.2 1 effEmpty specAB none [] effA1 bip_empty rfl

/-- C3: when the supplied edge id is hashable and already an edge key, a
further `add_edge` call with a valid spec is a complete no-op apart from one
duplicate warning: the returned state keeps the node table, node attributes,
edge table, edge attributes and allocator counter of the input state
unchanged, so the entry for that id still reflects the original spec only,
and the duplicate check fires before any table write of the call. -/
theorem C3_duplicate_idx_noop (fuel : Nat) (g : DiUberGraphs) (w : Nat)
    (m tail head i : PyObj) (attr : Attr)
    (hsp : spec2 m = some (tail, head)) (hh : hashable i = true)
    (hmem : amem g.edge i = true) :
    add_edge (fuel + 1) (⟨g, w⟩ : Eff) m (some i) attr = .ok ⟨g, w + 1⟩ := by
  rw [add_edge_succ, hsp]
  simp only [hh, hmem, Bool.true_eq_false, if_false, reduceIte]

/-- Witness for C3: edge id 5 is created by `add_edge(specAB, idx=5)` on the
fresh graph; `add_edge(specCD, idx=5)` then only warns, leaving the tables
and the counter exactly as they were. -/
theorem C3_witness :
    add_edge 1 effEmpty specAB (some (.pint 5)) [] = .ok eff5c ∧
    add_edge 1 eff5c specCD (some (.pint 5)) [] = .ok ⟨eff5c.g, 2⟩ :=
  ⟨rfl, C3_duplicate_idx_noop 0 eff5c.g 1 specCD (.plist [.pstr "c"])
    (.plist [.pstr "d"]) (.pint 5) [] rfl rfl rfl⟩

/-- C4: from a fresh graph, successive `add_edge` calls with `idx=None` assign
the strictly increasing ids 0, 1, 2; after committing an edge with explicit
`idx=7` from a fresh graph the next `idx=None` call assigns id 8, while from a
graph whose counter already stands at 9 the rebase keeps the counter at 9 and
the next `idx=None` call assigns id 9; and in general, on any state whose
counter dominates every integer-valued edge id, an `idx=None` call commits the
sampled counter value as a fresh edge id, strictly increases the counter
beyond it, and counter dominance is preserved by every completed call. -/
theorem C4_allocator_monotone :
    (add_edge 1 effEmpty specAB none [] = .ok effA1 ∧
      add_edge 1 effA1 specAB none [] = .ok effA2 ∧
      add_edge 1 effA2 specAB none [] = .ok effA3 ∧
      effA3.g.edge.map Prod.fst = [.pint 0, .pint 1, .pint 2] ∧
      effA3.g.edge_uid = 3) ∧
    (add_edge 1 effEmpty specAB (some (.pint 7)) [] = .ok eff7 ∧
      add_edge 1 eff7 specAB none [] = .ok eff78 ∧
      eff78.g.edge.map Prod.fst = [.pint 7, .pint 8]) ∧
    (eff9start.g.edge_uid = 9 ∧
      add_edge 1 eff9start specAB (some (.pint 7)) [] = .ok eff97 ∧
      eff97.g.edge_uid = 9 ∧
      add_edge 1 eff97 specAB none [] = .ok eff979 ∧
      eff979.g.edge.map Prod.fst = [.pint 7, .pint 9]) ∧
    (∀ fuel eff m attr eff2, counterDominates eff.g →
      add_edge (fuel + 1) eff m none attr = .ok eff2 →
      amem eff2.g.edge (.pint (eff.g.edge_uid : Int)) = true ∧
      eff.g.edge_uid + 1 ≤ eff2.g.edge_uid) ∧
    (∀ fuel eff m idx attr eff2, counterDominates eff.g →
      add_edge fuel eff m idx attr = .ok eff2 → counterDominates eff2.g) := by
  refine ⟨⟨rfl, rfl, rfl, rfl, rfl⟩, ⟨rfl, rfl, rfl⟩,
    ⟨rfl, rfl, rfl, rfl, rfl⟩, ?_, ?_⟩
  · intro fuel eff m attr eff2 hd h
    have hfresh : amem eff.g.edge (.pint (eff.g.edge_uid : Int)) = false := by
      cases hb : amem eff.g.edge (.pint (eff.g.edge_uid : Int)) with
      | false => rfl
      | true => exact absurd (hd _ hb) (lt_irrefl _)
    exact add_edge_none_commit fuel eff m attr eff2 hfresh h
  · intro fuel eff m idx attr eff2 hd h
    exact add_edge_counterDominates fuel eff m idx attr eff2 hd h

/-- Witness for C4: the dominance invariant transported across one completed
call on the fresh empty graph. -/
theorem C4_witness : counterDominates effA1.g :=
  C4_allocator_monotone.2.2.2.2 1 effEmpty specAB none [] effA1
    (fun _ hz => Bool.noConfusion hz) rfl

/-- C5: refuted as stated.  `add_edge((["a","b"],["c"]))` on the fresh graph
yields a 3-node, 1-edge graph, yet `incidence_matrix` raises `KeyError`
instead of returning a matrix with a nonzero entry per member: the source
iterates `members = H._edge[edge]` — a dict whose keys are `"in"` and
`"out"` — so the per-member loop looks the strings `"in"`/`"out"` up in
`node_dict` rather than the edge's member tokens. -/
theorem C5_incidence_matrix_keyerror :
    add_edge 1 effEmpty specABC none [] = .ok effABC ∧
    aget effABC.g.edge (.pint 0) =
      some ⟨{.pstr "b", .pstr "a"}, {.pstr "c"}⟩ ∧
    edgeDictKeys ⟨{.pstr "b", .pstr "a"}, {.pstr "c"}⟩ =
      [.pstr "in", .pstr "out"] ∧
    incidence_matrix [.pstr "a", .pstr "b", .pstr "c"] [.pint 0] effABC.g =
      .error (.keyError "KeyError in node_dict lookup") :=
  ⟨rfl, rfl, rfl, rfl⟩

/-- C6: on any graph state whose sampled counter value is an unused edge id,
`add_edge((["a","b"],["c"]))` flattens each side one level and creates exactly
one new edge with tail member set `{a, b}` and head member set `{c}`; nodes
`a` and `b` carry the new id in their out-incidence set and node `c` in its
in-incidence set. -/
theorem C6_flatten_single_edge (fuel : Nat) (eff : Eff)
    (hfresh : amem eff.g.edge (.pint (eff.g.edge_uid : Int)) = false) :
    ∃ eff2, add_edge (fuel + 1) eff specABC none [] = .ok eff2 ∧
      aget eff2.g.edge (.pint (eff.g.edge_uid : Int)) =
        some ⟨{.pstr "a", .pstr "b"}, {.pstr "c"}⟩ ∧
      eff2.g.edge.length = eff.g.edge.length + 1 ∧
      eff2.g.edge_uid = eff.g.edge_uid + 1 ∧
      (∀ s ∈ ["a", "b"], ∃ nr, aget eff2.g.node (.pstr s) = some nr ∧
        .pint (eff.g.edge_uid : Int) ∈ nr.nOut) ∧
      ∃ nr, aget eff2.g.node (.pstr "c") = some nr ∧
        .pint (eff.g.edge_uid : Int) ∈ nr.nIn := by
  obtain ⟨eff2, heq, hget, hother, hlen, hcnt, hwarn, hts, hhs, hunch⟩ :=
    add_edge_scalars fuel eff ["a", "b"] ["c"] hfresh
  have hab : ((["a", "b"].map PyObj.pstr).toFinset : Finset PyObj) =
      ({.pstr "a", .pstr "b"} : Finset PyObj) := by decide
  have hc : ((["c"].map PyObj.pstr).toFinset : Finset PyObj) =
      ({.pstr "c"} : Finset PyObj) := by decide
  refine ⟨eff2, heq, ?_, hlen, hcnt, hts, hhs "c" (by simp)⟩
  rw [hget, hab, hc]

/-- Witness for C6: the run on the fresh empty graph, assigning edge id 0. -/
theorem C6_witness :
    ∃ eff2, add_edge 1 effEmpty specABC none [] = .ok eff2 ∧
      aget eff2.g.edge (.pint (effEmpty.g.edge_uid : Int)) =
        some ⟨{.pstr "a", .pstr "b"}, {.pstr "c"}⟩ ∧
      eff2.g.edge.length = effEmpty.g.edge.length + 1 ∧
      eff2.g.edge_uid = effEmpty.g.edge_uid + 1 ∧
      (∀ s ∈ ["a", "b"], ∃ nr, aget eff2.g.node (.pstr s) = some nr ∧
        .pint (effEmpty.g.edge_uid : Int) ∈ nr.nOut) ∧
      ∃ nr, aget eff2.g.node (.pstr "c") = some nr ∧
        .pint (effEmpty.g.edge_uid : Int) ∈ nr.nIn :=
  C6_flatten_single_edge 0 effEmpty rfl

/-- C7: for every graph state and every spec that is not a list or tuple of
length exactly 2, `add_edge` fails with the invalid-edge-spec `TypeError` and
the error carries the input state unchanged: node table, node attributes,
edge table, edge attributes and allocator counter are all as before. -/
theorem C7_invalid_spec_no_mutation (fuel : Nat) (eff : Eff) (m : PyObj)
    (idx : Option PyObj) (attr : Attr) (hsp : spec2 m = none) :
    add_edge (fuel + 1) eff m idx attr =
      .error (.typeError "Directed edge must be a list or tuple of length 2!",
        eff) := by
  rw [add_edge_succ, hsp]

/-- Witness for C7: a one-element list is not a valid spec; the empty graph is
returned unchanged inside the error. -/
theorem C7_witness :
    add_edge 1 effEmpty (.plist [.pstr "a"]) none [] =
      .error (.typeError "Directed edge must be a list or tuple of length 2!",
        effEmpty) :=
  C7_invalid_spec_no_mutation 0 effEmpty (.plist [.pstr "a"]) none [] rfl

/-- Counterexample to C8: `idx = object()` — a non-numeric hashable token —
does not complete without raising: after the edge is committed under that id,
`update_uid_counter` evaluates `float(idx)`, which raises `TypeError`, and
the sampled `next(...)` has already advanced the counter from 0 to 1. -/
theorem C8_counterexample :
    ∃ effC, add_edge 1 effEmpty specAB (some (.pother 0)) [] =
        .error (.typeError "float() argument must be a string or a real number",
          effC) ∧
      amem effC.g.edge (.pother 0) = true ∧
      effC.g.edge_uid = 1 :=
  ⟨_, rfl, rfl, rfl⟩

/-- C8 (amended): for a committed caller-supplied idx that is a text token, a
tuple, or a non-integral float, the rebase step leaves the state — counter
included — unchanged and does not raise; a non-numeric hashable idx instead
makes `float(idx)` raise `TypeError`, with the counter advanced by the
`next(...)` sample; and the counter is moved (to `int(idx) + 1`) exactly for
an idx representing an integer greater than or equal to the sampled counter
value. -/
theorem C8_rebase_behaviour :
    (∀ eff s, rebaseE (.pstr s) eff = .ok eff) ∧
    (∀ eff xs, rebaseE (.ptup xs) eff = .ok eff) ∧
    (∀ eff t, rebaseE (.pfloatNI t) eff = .ok eff) ∧
    (∀ eff k, rebaseE (.pother k) eff =
      .error (.typeError "float() argument must be a string or a real number",
        { eff with g := { eff.g with edge_uid := eff.g.edge_uid + 1 } })) ∧
    (∀ (c : Nat) (n : Int), (c : Int) ≤ n →
      update_uid_counter c (.pint n) = (none, (n + 1).toNat)) ∧
    (∀ c i c2, update_uid_counter c i = (none, c2) → c2 ≠ c →
      ∃ n, i = .pint n ∧ (c : Int) ≤ n ∧ c2 = (n + 1).toNat) := by
  refine ⟨fun eff s => rfl, fun eff xs => rfl, fun eff t => rfl,
    fun eff k => rfl, ?_, ?_⟩
  · intro c n h
    simp only [update_uid_counter]
    rw [if_pos h]
  · intro c i c2 h hne
    cases i with
    | pint n =>
      simp only [update_uid_counter] at h
      split at h
      · rename_i hle
        injection h with h1 h2
        exact ⟨n, rfl, hle, h2.symm⟩
      · injection h with h1 h2
        exact absurd h2.symm hne
    | pstr s =>
      injection h with h1 h2
      exact absurd h2.symm hne
    | ptup xs =>
      injection h with h1 h2
      exact absurd h2.symm hne
    | pfloatNI t =>
      injection h with h1 h2
      exact absurd h2.symm hne
    | pnone =>
      injection h with h1 h2
      exact Option.noConfusion h1
    | plist xs =>
      injection h with h1 h2
      exact Option.noConfusion h1
    | pother k =>
      injection h with h1 h2
      exact Option.noConfusion h1

/-- Witness for C8 (amended): an integer idx 7 at counter 2 passes the guard
and moves the counter to 8. -/
theorem C8_witness : update_uid_counter 2 (.pint 7) = (none, 8) :=
  C8_rebase_behaviour.2.2.2.2.1 2 7 (by decide)

/-- C9: refuted toward a code bug.  `IDDict.__getitem__` and `__delitem__`
on an absent key, and `__setitem__` on a `None` key, reach handlers that
evaluate the names `IDNotFound` and `XGIError`, neither of which is imported
or defined in `utils.py`, so those paths raise `NameError` rather than the
intended exceptions; only the unhashable-key path raises the documented
`TypeError`. -/
theorem C9_iddict_nameerror :
    IDDict.getitem ([] : List (PyObj × PyObj)) (.pstr "a") =
      .error (.nameError "name IDNotFound is not defined") ∧
    IDDict.setitem ([] : List (PyObj × PyObj)) .pnone (.pint 0) =
      .error (.nameError "name XGIError is not defined") ∧
    IDDict.setitem ([] : List (PyObj × PyObj)) (.plist []) (.pint 0) =
      .error (.typeError "ID not a valid type") ∧
    IDDict.delitem ([] : List (PyObj × PyObj)) (.pstr "a") =
      .error (.nameError "name IDNotFound is not defined") :=
  ⟨rfl, rfl, rfl, rfl⟩

/-- C10: the trailing duplicated block is inert on every successful
explicit-idx commit: whenever the recommitted id is already an edge key the
block only warns and returns the state unchanged, and every `add_edge` call
with a supplied idx that returns successfully factors through that block —
its result is exactly the pre-block state (committed edge, attributes and
rebased counter included) with one extra warning. -/
theorem C10_trailing_block_inert :
    (∀ recAdd eff members i attr tail head,
      spec2 members = some (tail, head) → hashable i = true →
      amem eff.g.edge i = true →
      trailingF recAdd eff members i attr =
        .ok { eff with warns := eff.warns + 1 }) ∧
    (∀ fuel eff m i attr eff2, amem eff.g.edge i = false →
      add_edge (fuel + 1) eff m (some i) attr = .ok eff2 →
      ∃ effPre tail head, spec2 m = some (tail, head) ∧
        amem effPre.g.edge i = true ∧
        trailingF (fun e m2 => add_edge fuel e m2 none []) effPre m i attr =
          .ok eff2 ∧
        eff2 = { effPre with warns := effPre.warns + 1 }) :=
  ⟨fun recAdd eff members i attr tail head hsp hh hm =>
     trailingF_dup_warn recAdd eff members i attr tail head hsp hh hm,
   fun fuel eff m i attr eff2 hf h =>
     add_edge_some_commit fuel eff m i attr eff2 hf h⟩

/-- Witness for C10: the commit of `(["a"],["b"])` under idx 3 on the fresh
graph factors through the trailing block, which adds exactly one warning. -/
theorem C10_witness :
    ∃ effPre tail head, spec2 specAB = some (tail, head) ∧
      amem effPre.g.edge (.pint 3) = true ∧
      trailingF (fun e m2 => add_edge 0 e m2 none []) effPre specAB
        (.pint 3) [] = .ok eff3c ∧
      eff3c = { effPre with warns := effPre.warns + 1 } :=
  C10_trailing_block_inert.2 0 effEmpty specAB (.pint 3) [] eff3c rfl rfl

end Uber
